import Mathlib

/-!
# libnero: host side of the NeroJTAG protocol

A shallow embedding of `libnero.c` / `libnero.h` / `vendorCommands.h`.

* The USB transport (`usb_control_msg`, `usb_bulk_write`, `usb_bulk_read`) is an
  external collaborator.  It is modelled by an arbitrary function `Usb` that maps the
  history of transport events and the call being issued to a reply; every call the
  library issues is appended to a `Trace`, together with the status it returned.
* Pointers are natural-number addresses (`NULL` is `0`); unsigned machine integers are
  naturals reduced explicitly modulo `2^w`.
* `neroShift` contains a `while` loop that does not terminate for every input, so the
  loop takes a fuel argument (one unit per iteration).  When the fuel runs out the
  outcome carries no return status, but it still carries the transport calls issued so
  far.
* `setEndpointSize` walks a 1024-byte stack buffer by device-declared lengths; a read
  at an offset outside that buffer has no defined result and is modelled by `none`.
  The bytes of the buffer beyond what the device transferred are whatever the stack
  held: the reply of the transport fixes all 1024 of them.
* The macros `CHECK_STATUS(s, ..., code)` and `FAIL(code)` come from headers that are not
  part of the sources; they are read as `if ( s ) { returnCode = code; goto cleanup; }`
  and `returnCode = code; goto cleanup;`.  The rendering of error messages (`errRender`,
  `errPrefix`) is not modelled.
-/

namespace LibNero

/-! ## Types of `libnero.h` and the private types of `libnero.c` -/

/-- Possible return codes (`libnero.h`). -/
inductive NeroStatus where
  | NERO_SUCCESS
  | NERO_USB_INIT
  | NERO_SYNC
  | NERO_ENDPOINTS
  | NERO_CLOCKFSM
  | NERO_CLOCKS
  | NERO_BEGIN_SHIFT
  | NERO_SEND
  | NERO_RECEIVE
  | NERO_ENABLE
  deriving DecidableEq, Repr

/-- Context struct (`struct NeroHandle`): `device` is a pointer (`0` is `NULL`),
`endpointSize` a `uint16`. -/
structure NeroHandle where
  device : Nat
  endpointSize : Nat
  deriving DecidableEq, Repr

/-- The private enumeration `SendType`. -/
inductive SendType where
  | SEND_ZEROS
  | SEND_ONES
  | SEND_DATA
  | SEND_MASK
  deriving DecidableEq, Repr

/-- Integer value of a `SendType` enumerator. -/
def SendType.toNat : SendType → Nat
  | .SEND_ZEROS => 0
  | .SEND_ONES => 1
  | .SEND_DATA => 2
  | .SEND_MASK => 3

def IS_RESPONSE_NEEDED : Nat := 0
def IS_LAST : Nat := 1
def SEND_TYPE : Nat := 2

/-! ## Constants -/

-- vendorCommands.h
def CMD_MODE_STATUS : Nat := 0x80
def CMD_JTAG_CLOCK_DATA : Nat := 0x81
def CMD_JTAG_CLOCK_FSM : Nat := 0x82
def CMD_JTAG_CLOCK : Nat := 0x83
def MODE_JTAG : Nat := 1 <<< 0

/-- Modelled from the spec: the constant `USB_ENDPOINT_OUT` of the platform header
`usb.h` is not part of the sources; the bulk OUT endpoint address `USB_ENDPOINT_OUT | 2`
is `0x02`. -/
def USB_ENDPOINT_OUT : Nat := 0x00
/-- Modelled from the spec: the constant `USB_ENDPOINT_IN` of the platform header
`usb.h` is not part of the sources; the bulk IN endpoint address `USB_ENDPOINT_IN | 4`
is `0x84`. -/
def USB_ENDPOINT_IN : Nat := 0x80
/-- Modelled from the spec: `usb.h` is not part of the sources; the request-type bits
for a standard request, as the USB protocol fixes them. -/
def USB_TYPE_STANDARD : Nat := 0x00 <<< 5
/-- Modelled from the spec: `usb.h` is not part of the sources; the request-type bits
for a vendor request, as the USB protocol fixes them. -/
def USB_TYPE_VENDOR : Nat := 0x02 <<< 5
/-- Modelled from the spec: `usb.h` is not part of the sources; recipient "device". -/
def USB_RECIP_DEVICE : Nat := 0x00
/-- Modelled from the spec: `usb.h` is not part of the sources; the standard
`GET_DESCRIPTOR` request code. -/
def USB_REQ_GET_DESCRIPTOR : Nat := 0x06

/-- Special value `ZEROS` for the `inData` parameter: `(const uint8*)NULL`. -/
def ZEROS : Nat := 0
/-- Special value `ONES` for the `inData` parameter: `(const uint8*)-1`, the all-ones
address of a machine whose pointers have `ptrBits` bits. -/
def ONES (ptrBits : Nat) : Nat := 2 ^ ptrBits - 1

/-- Return the number of bytes necessary to store `x` bits: the macro
`bitsToBytes(x) ((x>>3) + (x&7 ? 1 : 0))`, evaluated in `uint32`. -/
def bitsToBytes (x : Nat) : Nat :=
  ((x >>> 3) + (if x &&& 7 ≠ 0 then 1 else 0)) % 2 ^ 32

/-- Modelled from the spec: `littleEndian32` of `makestuff.h` is not part of the
sources.  The four bytes, in memory order, of the `uint32` it returns: the
little-endian encoding of `x` on every host. -/
def littleEndian32 (x : Nat) : List Nat :=
  [x % 256, (x >>> 8) % 256, (x >>> 16) % 256, (x >>> 24) % 256]

/-- Modelled from the spec: `littleEndian16` of `makestuff.h` is not part of the
sources.  The value of a 16-bit little-endian field whose bytes in memory order are
`b0`, `b1`. -/
def littleEndian16 (b0 b1 : Nat) : Nat := (b0 + 256 * b1) % 2 ^ 16

/-! ## The transport -/

/-- One call of the platform USB library.  `bytes` is the payload of an outbound
control transfer (empty when the buffer argument is `NULL` or receives data). -/
inductive Call where
  | control (dev requesttype request value index : Nat) (bytes : List Nat)
      (size timeout : Nat)
  | bulkWrite (dev ep ptr size timeout : Nat)
  | bulkRead (dev ep ptr size timeout : Nat)
  deriving DecidableEq, Repr

/-- What a transport call returns: the `int` status (negative on failure) and, for the
descriptor query, the bytes found in the receive buffer afterwards, by offset. -/
structure Reply where
  status : Int
  data : Nat → Nat

/-- A transport call and the status it returned. -/
structure Event where
  call : Call
  status : Int
  deriving DecidableEq, Repr

abbrev Trace := List Event

/-- Behaviour of the device and the USB stack: the reply to a call, given all earlier
events. -/
abbrev Usb := Trace → Call → Reply

def usb_control_msg (usb : Usb) (tr : Trace) (dev requesttype request value index : Nat)
    (bytes : List Nat) (size timeout : Nat) : Reply × Trace :=
  let c := Call.control dev requesttype request value index bytes size timeout
  let r := usb tr c
  (r, tr ++ [⟨c, r.status⟩])

def usb_bulk_write (usb : Usb) (tr : Trace) (dev ep ptr size timeout : Nat) :
    Int × Trace :=
  let c := Call.bulkWrite dev ep ptr size timeout
  ((usb tr c).status, tr ++ [⟨c, (usb tr c).status⟩])

def usb_bulk_read (usb : Usb) (tr : Trace) (dev ep ptr size timeout : Nat) :
    Int × Trace :=
  let c := Call.bulkRead dev ep ptr size timeout
  ((usb tr c).status, tr ++ [⟨c, (usb tr c).status⟩])

/-! ## Private functions of `libnero.c` -/

/-- The `wValue` that `beginShift` builds in a `uint16`. -/
def beginShiftValue (sendType : SendType) (isLast isResponseNeeded : Bool) : Nat :=
  let wValue := 0x0000
  let wValue := if isLast then (wValue ||| (1 <<< IS_LAST)) % 2 ^ 16 else wValue
  let wValue :=
    if isResponseNeeded then (wValue ||| (1 <<< IS_RESPONSE_NEEDED)) % 2 ^ 16 else wValue
  (wValue ||| (sendType.toNat <<< SEND_TYPE)) % 2 ^ 16

/-- Kick off a shift operation on the micro. -/
def beginShift (usb : Usb) (tr : Trace) (handle : NeroHandle) (numBits : Nat)
    (sendType : SendType) (isLast isResponseNeeded : Bool) : NeroStatus × Trace :=
  let r := usb_control_msg usb tr handle.device
    (USB_ENDPOINT_OUT ||| USB_TYPE_VENDOR ||| USB_RECIP_DEVICE)
    CMD_JTAG_CLOCK_DATA (beginShiftValue sendType isLast isResponseNeeded) 0x0000
    (littleEndian32 numBits) 4 5000
  if r.1.status < 0 then (.NERO_BEGIN_SHIFT, r.2) else (.NERO_SUCCESS, r.2)

/-- Send a chunk of data to the micro. -/
def doSend (usb : Usb) (tr : Trace) (handle : NeroHandle) (sendPtr chunkSize : Nat) :
    NeroStatus × Trace :=
  let r := usb_bulk_write usb tr handle.device (USB_ENDPOINT_OUT ||| 2) sendPtr chunkSize 5000
  if r.1 < 0 then (.NERO_SEND, r.2) else (.NERO_SUCCESS, r.2)

/-- Receive a chunk of data from the micro. -/
def doReceive (usb : Usb) (tr : Trace) (handle : NeroHandle) (receivePtr chunkSize : Nat) :
    NeroStatus × Trace :=
  let r := usb_bulk_read usb tr handle.device (USB_ENDPOINT_IN ||| 4) receivePtr chunkSize 5000
  if r.1 < 0 then (.NERO_RECEIVE, r.2) else (.NERO_SUCCESS, r.2)

/-- Put the device in jtag mode (i.e drive or tristate the JTAG lines). -/
def setJtagMode (usb : Usb) (tr : Trace) (handle : NeroHandle) (enable : Bool) :
    NeroStatus × Trace :=
  let r := usb_control_msg usb tr handle.device
    (USB_ENDPOINT_OUT ||| USB_TYPE_VENDOR ||| USB_RECIP_DEVICE)
    CMD_MODE_STATUS (if enable then MODE_JTAG else 0) MODE_JTAG [] 0 5000
  if r.1.status < 0 then (.NERO_ENABLE, r.2) else (.NERO_SUCCESS, r.2)

/-- Read of a `uint8` field at offset `off` of `char descriptorBuffer[1024]`;
`none` when the offset lies outside the array. -/
def readU8 (buf : Nat → Nat) (off : Nat) : Option Nat :=
  if off < 1024 then some (buf off % 256) else none

/-- Read of the `uint16` field `wMaxPacketSize` stored at offsets `off`, `off+1`,
passed through `littleEndian16`. -/
def readLE16 (buf : Nat → Nat) (off : Nat) : Option Nat :=
  match readU8 buf off, readU8 buf (off + 1) with
  | some b0, some b1 => some (littleEndian16 b0 b1)
  | _, _ => none

/-- The loop `while ( endpointNum-- )` of `setEndpointSize`.  Field offsets of
`struct usb_endpoint_descriptor`: `bLength` 0, `bEndpointAddress` 2, `bmAttributes` 3,
`wMaxPacketSize` 4.  Returns `(ep2size, ep4size)`. -/
def endpointLoop (buf : Nat → Nat) : Nat → Nat → Nat → Nat → Option (Nat × Nat)
  | 0, _, ep2size, ep4size => some (ep2size, ep4size)
  | endpointNum + 1, ptr, ep2size, ep4size =>
    match readU8 buf (ptr + 3) with
    | none => none
    | some bmAttributes =>
      let sizes : Option (Nat × Nat) :=
        if bmAttributes = 0x02 then
          match readU8 buf (ptr + 2) with
          | none => none
          | some bEndpointAddress =>
            if bEndpointAddress = 0x02 then
              (readLE16 buf (ptr + 4)).map fun s => (s, ep4size)
            else if bEndpointAddress = 0x84 then
              (readLE16 buf (ptr + 4)).map fun s => (ep2size, s)
            else some (ep2size, ep4size)
        else some (ep2size, ep4size)
      match sizes with
      | none => none
      | some (ep2, ep4) =>
        match readU8 buf ptr with
        | none => none
        | some bLength => endpointLoop buf endpointNum (ptr + bLength) ep2 ep4

/-- The body of `if ( uStatus > 0 )` in `setEndpointSize`: skip the configuration
descriptor, read the interface descriptor (`bLength` at offset 0, `bNumEndpoints` at
offset 4) and scan its endpoint descriptors. -/
def walkDescriptors (buf : Nat → Nat) : Option (Nat × Nat) :=
  match readU8 buf 0 with
  | none => none
  | some cfgLength =>
    let ptr := cfgLength
    match readU8 buf ptr with
    | none => none
    | some ifLength =>
      match readU8 buf (ptr + 4) with
      | none => none
      | some endpointNum => endpointLoop buf endpointNum (ptr + ifLength) 0 0

/-- Find the size of the EP2OUT and EP4IN bulk endpoints (they must be the same).
`none`: the walk read outside `descriptorBuffer`. -/
def setEndpointSize (usb : Usb) (tr : Trace) (handle : NeroHandle) :
    Option (NeroStatus × NeroHandle × Trace) :=
  let handle : NeroHandle := { handle with endpointSize := 0 }
  let r := usb_control_msg usb tr handle.device
    (USB_ENDPOINT_IN ||| USB_TYPE_STANDARD ||| USB_RECIP_DEVICE)
    USB_REQ_GET_DESCRIPTOR 0x0200 0x0000 [] 1024 5000
  let uStatus := r.1.status
  if uStatus < 0 then some (.NERO_ENDPOINTS, handle, r.2)
  else
    match (if uStatus > 0 then walkDescriptors r.1.data else some (0, 0)) with
    | none => none
    | some (ep2size, ep4size) =>
      if ep2size = 0 then some (.NERO_ENDPOINTS, handle, r.2)
      else if ep4size = 0 then some (.NERO_ENDPOINTS, handle, r.2)
      else if ep2size ≠ ep4size then some (.NERO_ENDPOINTS, handle, r.2)
      else some (.NERO_SUCCESS, { handle with endpointSize := ep2size }, r.2)

/-! ## Public functions -/

/-- Result of a public function: return code, the handle as the call leaves it, and
the transport events so far. -/
structure Outcome where
  status : NeroStatus
  handle : NeroHandle
  trace : Trace
  deriving DecidableEq

/-- Result of `neroShift` run with bounded fuel; `status` is `none` when the chunk
loop was still running when the fuel ran out. -/
structure ShiftOutcome where
  status : Option NeroStatus
  handle : NeroHandle
  trace : Trace
  deriving DecidableEq

/-- Find the NeroJTAG device, open it. -/
def neroInitialise (usb : Usb) (tr : Trace) (device : Nat) (handle : NeroHandle) :
    Option Outcome :=
  let handle : NeroHandle := { handle with device := device }
  match setEndpointSize usb tr handle with
  | none => none
  | some (nStatus, handle, tr) =>
    if nStatus ≠ .NERO_SUCCESS then
      some ⟨.NERO_ENDPOINTS, { device := 0, endpointSize := 0 }, tr⟩
    else
      let r := setJtagMode usb tr handle true
      if r.1 ≠ .NERO_SUCCESS then
        some ⟨.NERO_ENABLE, { device := 0, endpointSize := 0 }, r.2⟩
      else some ⟨.NERO_SUCCESS, handle, r.2⟩

/-- Close the cable...drop the USB connection. -/
def neroClose (usb : Usb) (tr : Trace) (handle : NeroHandle) : Outcome :=
  if handle.device ≠ 0 then
    let r := setJtagMode usb tr handle false
    if r.1 ≠ .NERO_SUCCESS then
      ⟨.NERO_ENABLE, { device := 0, endpointSize := 0 }, r.2⟩
    else ⟨.NERO_SUCCESS, { device := 0, endpointSize := 0 }, r.2⟩
  else ⟨.NERO_SUCCESS, { device := 0, endpointSize := 0 }, tr⟩

/-- The loop `while ( numBytes )` of `neroShift`; the first argument is the fuel. -/
def shiftLoop (usb : Usb) (handle : NeroHandle) (sendType : SendType)
    (isResponseNeeded : Bool) : Nat → Trace → Nat → Nat → Nat → ShiftOutcome
  | 0, tr, numBytes, _, _ =>
    if numBytes = 0 then ⟨some .NERO_SUCCESS, handle, tr⟩ else ⟨none, handle, tr⟩
  | fuel + 1, tr, numBytes, inData, outData =>
    if numBytes = 0 then ⟨some .NERO_SUCCESS, handle, tr⟩
    else
      let chunkSize :=
        if numBytes ≥ handle.endpointSize then handle.endpointSize else numBytes % 2 ^ 16
      let s : NeroStatus × Trace × Nat :=
        if sendType = .SEND_DATA then
          let r := doSend usb tr handle inData chunkSize
          (r.1, r.2, inData + chunkSize)
        else (.NERO_SUCCESS, tr, inData)
      if s.1 ≠ .NERO_SUCCESS then ⟨some .NERO_SEND, handle, s.2.1⟩
      else
        let v : NeroStatus × Trace × Nat :=
          if isResponseNeeded then
            let r := doReceive usb s.2.1 handle outData chunkSize
            (r.1, r.2, outData + chunkSize)
          else (.NERO_SUCCESS, s.2.1, outData)
        if v.1 ≠ .NERO_SUCCESS then ⟨some .NERO_RECEIVE, handle, v.2.1⟩
        else
          shiftLoop usb handle sendType isResponseNeeded fuel v.2.1
            ((numBytes + 2 ^ 32 - chunkSize) % 2 ^ 32) s.2.2 v.2.2

/-- Shift data into and out of JTAG chain.  In pointer may be `ZEROS` (shift in zeros)
or `ONES` (shift in ones).  Out pointer may be `NULL` (not interested in data shifted
out of the chain). -/
def neroShift (ptrBits : Nat) (usb : Usb) (fuel : Nat) (tr : Trace) (handle : NeroHandle)
    (numBits inData outData : Nat) (isLast : Bool) : ShiftOutcome :=
  let sendType : SendType :=
    if inData = ZEROS then .SEND_ZEROS
    else if inData = ONES ptrBits then .SEND_ONES
    else .SEND_DATA
  let isResponseNeeded : Bool := if outData ≠ 0 then true else false
  let r := beginShift usb tr handle numBits sendType isLast isResponseNeeded
  if r.1 ≠ .NERO_SUCCESS then ⟨some .NERO_BEGIN_SHIFT, handle, r.2⟩
  else
    shiftLoop usb handle sendType isResponseNeeded fuel r.2 (bitsToBytes numBits)
      inData outData

/-- Apply the supplied bit pattern to TMS, to move the TAP to a specific state. -/
def neroClockFSM (usb : Usb) (tr : Trace) (handle : NeroHandle)
    (bitPattern transitionCount : Nat) : Outcome :=
  let r := usb_control_msg usb tr handle.device
    (USB_ENDPOINT_OUT ||| USB_TYPE_VENDOR ||| USB_RECIP_DEVICE)
    CMD_JTAG_CLOCK_FSM (transitionCount % 2 ^ 16) 0x0000 (littleEndian32 bitPattern) 4 5000
  if r.1.status < 0 then ⟨.NERO_CLOCKFSM, handle, r.2⟩ else ⟨.NERO_SUCCESS, handle, r.2⟩

/-- Cycle the TCK line for the given number of times. -/
def neroClocks (usb : Usb) (tr : Trace) (handle : NeroHandle) (numClocks : Nat) : Outcome :=
  let r := usb_control_msg usb tr handle.device
    (USB_ENDPOINT_OUT ||| USB_TYPE_VENDOR ||| USB_RECIP_DEVICE)
    CMD_JTAG_CLOCK (numClocks &&& 0xFFFF) (numClocks >>> 16) [] 0 5000
  if r.1.status < 0 then ⟨.NERO_CLOCKS, handle, r.2⟩ else ⟨.NERO_SUCCESS, handle, r.2⟩

/-! ## Observations on traces and the chunking the specification prescribes -/

/-- Size argument of a bulk OUT transfer. -/
def Call.sentSize : Call → Option Nat
  | .bulkWrite _ _ _ size _ => some size
  | _ => none

/-- Size argument of a bulk IN transfer. -/
def Call.receivedSize : Call → Option Nat
  | .bulkRead _ _ _ size _ => some size
  | _ => none

/-- Addresses a bulk OUT transfer reads its payload from. -/
def Call.sentAddrs : Call → List Nat
  | .bulkWrite _ _ ptr size _ => List.range' ptr size
  | _ => []

/-- Addresses a bulk IN transfer stores the received bytes at. -/
def Call.receivedAddrs : Call → List Nat
  | .bulkRead _ _ ptr size _ => List.range' ptr size
  | _ => []

/-- Size argument of every bulk OUT transfer of a trace, in order. -/
def sentSizes (tr : Trace) : List Nat := (tr.map Event.call).filterMap Call.sentSize

/-- Size argument of every bulk IN transfer of a trace, in order. -/
def receivedSizes (tr : Trace) : List Nat := (tr.map Event.call).filterMap Call.receivedSize

/-- All bytes handed to bulk OUT transfers, in order, when memory holds `mem`. -/
def sentBytes (mem : Nat → Nat) (tr : Trace) : List Nat :=
  ((tr.map Event.call).flatMap Call.sentAddrs).map mem

/-- All addresses filled by bulk IN transfers, in order. -/
def receivedAddrs (tr : Trace) : List Nat := (tr.map Event.call).flatMap Call.receivedAddrs

/-- Number of chunks: `ceil(numBytes / chunkSize)`. -/
def numChunks (chunkSize numBytes : Nat) : Nat := (numBytes + chunkSize - 1) / chunkSize

/-- Chunk sizes as the specification words them: chunks of size `chunkSize` except
possibly the last, which holds the remainder. -/
def chunkSizes (chunkSize numBytes : Nat) : List Nat :=
  List.replicate (numBytes / chunkSize) chunkSize ++
    (if numBytes % chunkSize = 0 then [] else [numBytes % chunkSize])

/-- Transfers of chunk `k` as the specification words them: in Data mode one bulk OUT
of chunk-size-or-remainder bytes from offset `k * chunkSize` of the send buffer, then,
when a response is needed, one bulk IN of the same size at the same offset of the
receive buffer. -/
def chunkCalls (handle : NeroHandle) (sendData responseNeeded : Bool)
    (inData outData numBytes k : Nat) : List Call :=
  (if sendData then
      [Call.bulkWrite handle.device 0x02 (inData + k * handle.endpointSize)
        (min handle.endpointSize (numBytes - k * handle.endpointSize)) 5000]
    else []) ++
  (if responseNeeded then
      [Call.bulkRead handle.device 0x84 (outData + k * handle.endpointSize)
        (min handle.endpointSize (numBytes - k * handle.endpointSize)) 5000]
    else [])

/-- All bulk transfers of a shift of `numBytes` bytes, chunk after chunk. -/
def shiftCalls (handle : NeroHandle) (sendData responseNeeded : Bool)
    (inData outData numBytes : Nat) : List Call :=
  (List.range (numChunks handle.endpointSize numBytes)).flatMap
    (chunkCalls handle sendData responseNeeded inData outData numBytes)

/-- A transport on which every call succeeds, transferring nothing. -/
def okUsb : Usb := fun _ _ => ⟨0, fun _ => 0⟩

/-! ## Definitions used to state the properties -/

/-- The event `doSend` appends. -/
def sendEvent (usb : Usb) (tr : Trace) (handle : NeroHandle) (ptr size : Nat) : Event :=
  ⟨Call.bulkWrite handle.device 0x02 ptr size 5000,
    (usb tr (Call.bulkWrite handle.device 0x02 ptr size 5000)).status⟩

/-- The event `doReceive` appends. -/
def receiveEvent (usb : Usb) (tr : Trace) (handle : NeroHandle) (ptr size : Nat) : Event :=
  ⟨Call.bulkRead handle.device 0x84 ptr size 5000,
    (usb tr (Call.bulkRead handle.device 0x84 ptr size 5000)).status⟩

/-- The event `beginShift` appends. -/
def beginShiftEvent (usb : Usb) (tr : Trace) (handle : NeroHandle) (numBits : Nat)
    (sendType : SendType) (isLast rn : Bool) : Event :=
  ⟨Call.control handle.device 0x40 0x81 (beginShiftValue sendType isLast rn) 0
      (littleEndian32 numBits) 4 5000,
    (usb tr (Call.control handle.device 0x40 0x81 (beginShiftValue sendType isLast rn) 0
      (littleEndian32 numBits) 4 5000)).status⟩

/-- The send type `neroShift` derives from the `inData` pointer. -/
def sendTypeOf (ptrBits inData : Nat) : SendType :=
  if inData = ZEROS then .SEND_ZEROS
  else if inData = ONES ptrBits then .SEND_ONES
  else .SEND_DATA

/-- The `chunkSize` an iteration computes. -/
def chunkOf (handle : NeroHandle) (numBytes : Nat) : Nat :=
  if numBytes ≥ handle.endpointSize then handle.endpointSize else numBytes % 2 ^ 16

/-- The value of `numBytes` after `numBytes -= chunkSize`. -/
def restOf (handle : NeroHandle) (numBytes : Nat) : Nat :=
  (numBytes + 2 ^ 32 - chunkOf handle numBytes) % 2 ^ 32

/-- Is the call a bulk OUT transfer (`usb_bulk_write`)? -/
def Call.isBulkWrite : Call → Bool
  | .bulkWrite _ _ _ _ _ => true
  | _ => false

/-- Is the call a bulk IN transfer (`usb_bulk_read`)? -/
def Call.isBulkRead : Call → Bool
  | .bulkRead _ _ _ _ _ => true
  | _ => false

/-- The error tag of the phase a call belongs to, within `neroShift`. -/
def phaseError : Call → NeroStatus
  | .control _ _ _ _ _ _ _ _ => .NERO_BEGIN_SHIFT
  | .bulkWrite _ _ _ _ _ => .NERO_SEND
  | .bulkRead _ _ _ _ _ => .NERO_RECEIVE

/-- The events `new`, added after `tr`, record what the transport `usb` replied; the
status `st` is success exactly when none of them failed; and a failed one is the last
and decides `st`. -/
def AbortsAtFailure (usb : Usb) (tr : Trace) (st : NeroStatus) (new : Trace) : Prop :=
  (st = .NERO_SUCCESS ↔ ∀ e ∈ new, 0 ≤ e.status) ∧
  (∀ pre e post, new = pre ++ e :: post → e.status = (usb (tr ++ pre) e.call).status) ∧
  (∀ pre e post, new = pre ++ e :: post → e.status < 0 →
    post = [] ∧ st = phaseError e.call)

/-- An endpoint descriptor record of a blob: the fields the layout fixes, and the bytes
(`bInterval`, ...) that follow `wMaxPacketSize` inside the record. -/
structure EndpointDescriptor where
  bDescriptorType : Nat
  bEndpointAddress : Nat
  bmAttributes : Nat
  wMaxPacketSize : Nat
  rest : List Nat

/-- The bytes of an endpoint descriptor record: `bLength` first, `wMaxPacketSize`
little-endian at offsets 4 and 5. -/
def EndpointDescriptor.bytes (e : EndpointDescriptor) : List Nat :=
  (6 + e.rest.length) :: e.bDescriptorType :: e.bEndpointAddress :: e.bmAttributes ::
    (e.wMaxPacketSize % 256) :: (e.wMaxPacketSize / 256) :: e.rest

/-- The fields of the record fit their widths. -/
def EndpointDescriptor.WellFormed (e : EndpointDescriptor) : Prop :=
  6 + e.rest.length < 256 ∧ e.bEndpointAddress < 256 ∧ e.bmAttributes < 256 ∧
    e.wMaxPacketSize < 65536

/-- A configuration-descriptor blob: one configuration descriptor (`configRest` are its
bytes after `bLength`), one interface descriptor (`ifaceRest` are its bytes after
`bNumEndpoints`) and the endpoint descriptors of that interface. -/
structure DescriptorBlob where
  configRest : List Nat
  ifDescriptorType : Nat
  bInterfaceNumber : Nat
  bAlternateSetting : Nat
  ifaceRest : List Nat
  endpoints : List EndpointDescriptor

/-- The bytes of the blob, records back to back, each starting with its `bLength`. -/
def DescriptorBlob.bytes (b : DescriptorBlob) : List Nat :=
  ((1 + b.configRest.length) :: b.configRest) ++
    (((5 + b.ifaceRest.length) :: b.ifDescriptorType :: b.bInterfaceNumber ::
      b.bAlternateSetting :: b.endpoints.length :: b.ifaceRest) ++
      b.endpoints.flatMap EndpointDescriptor.bytes)

/-- Every length and count fits its byte, and the blob fits `descriptorBuffer`. -/
def DescriptorBlob.WellFormed (b : DescriptorBlob) : Prop :=
  1 + b.configRest.length < 256 ∧ 5 + b.ifaceRest.length < 256 ∧
    b.endpoints.length < 256 ∧ (∀ e ∈ b.endpoints, e.WellFormed) ∧ b.bytes.length ≤ 1024

/-- Is the record a bulk endpoint (`bmAttributes` `0x02`) with address `addr`? -/
def EndpointDescriptor.isBulkAt (addr : Nat) (e : EndpointDescriptor) : Bool :=
  e.bmAttributes = 0x02 && e.bEndpointAddress = addr

/-- The `wMaxPacketSize` recorded for address `addr`, starting from `init`: that of the
bulk endpoint descriptor with this address (of the last one, should several carry it),
`init` when there is none. -/
def recordedFrom (addr init : Nat) (eps : List EndpointDescriptor) : Nat :=
  (((eps.filter (EndpointDescriptor.isBulkAt addr)).getLast?).map
    EndpointDescriptor.wMaxPacketSize).getD init

/-- The `wMaxPacketSize` recorded for address `addr`; `0` when no bulk endpoint
descriptor carries it. -/
def recordedSize (addr : Nat) (eps : List EndpointDescriptor) : Nat :=
  recordedFrom addr 0 eps

/-- The descriptor query `setEndpointSize` issues. -/
def descriptorQuery (dev : Nat) : Call :=
  Call.control dev 0x80 0x06 0x0200 0 [] 1024 5000

/-- The mode control transfer `setJtagMode` issues: request `CMD_MODE_STATUS`, the new
mode bits in the value field and the mask `MODE_JTAG` in the index field. -/
def modeCall (dev value : Nat) : Call := Call.control dev 0x40 0x80 value MODE_JTAG [] 0 5000

/-- The event of the descriptor query, on device `dev` after `tr`. -/
def queryEvent (usb : Usb) (tr : Trace) (dev : Nat) : Event :=
  ⟨descriptorQuery dev, (usb tr (descriptorQuery dev)).status⟩

/-- The event of a mode control transfer with the given value, on device `dev` after
`tr`. -/
def modeEvent (usb : Usb) (tr : Trace) (dev value : Nat) : Event :=
  ⟨modeCall dev value, (usb tr (modeCall dev value)).status⟩

/-- A device that answers the descriptor query with 1024 bytes `0xFF`. -/
def allOnesDevice : Usb := fun _ _ => ⟨1024, fun _ => 255⟩

/-- A transport whose call number `k` (counting from 0) fails and all others succeed. -/
def failAt (k : Nat) : Usb := fun h _ => ⟨if h.length = k then -1 else 0, fun _ => 0⟩

/-- A device whose every transfer succeeds and whose descriptor query returns `bytes`. -/
def deviceReturning (bytes : List Nat) : Usb :=
  fun _ _ => ⟨bytes.length, fun i => bytes.getD i 0⟩

/-- A 7-byte bulk endpoint descriptor with the given address and `wMaxPacketSize`. -/
def bulkEndpoint (addr size : Nat) : EndpointDescriptor := ⟨5, addr, 0x02, size, [0]⟩

/-- A blob with a 9-byte configuration descriptor, a 9-byte interface descriptor and the
given endpoint descriptors. -/
def blobWith (eps : List EndpointDescriptor) : DescriptorBlob :=
  ⟨[2, 32, 0, 1, 1, 0, 0x80, 50], 4, 0, 0, [0xFF, 0, 0, 0], eps⟩

/-- One call of the public interface, as a client issues it on its session. -/
inductive Op where
  | initialise (device : Nat)
  | close
  | shift (fuel numBits inData outData : Nat) (isLast : Bool)
  | clockFSM (bitPattern transitionCount : Nat)
  | clocks (numClocks : Nat)
  deriving DecidableEq

/-- Is the call `neroInitialise` or `neroClose`? -/
def Op.resets : Op → Bool
  | .initialise _ => true
  | .close => true
  | _ => false

/-- The session and the transport events after one call; `none` when `neroInitialise`
has no defined outcome. -/
def step (ptrBits : Nat) (usb : Usb) (s : NeroHandle × Trace) : Op → Option (NeroHandle × Trace)
  | .initialise device =>
    (neroInitialise usb s.2 device s.1).map fun o => (o.handle, o.trace)
  | .close => some ((neroClose usb s.2 s.1).handle, (neroClose usb s.2 s.1).trace)
  | .shift fuel numBits inData outData isLast =>
    some ((neroShift ptrBits usb fuel s.2 s.1 numBits inData outData isLast).handle,
      (neroShift ptrBits usb fuel s.2 s.1 numBits inData outData isLast).trace)
  | .clockFSM bitPattern transitionCount =>
    some ((neroClockFSM usb s.2 s.1 bitPattern transitionCount).handle,
      (neroClockFSM usb s.2 s.1 bitPattern transitionCount).trace)
  | .clocks numClocks =>
    some ((neroClocks usb s.2 s.1 numClocks).handle, (neroClocks usb s.2 s.1 numClocks).trace)

/-- The session and the transport events after a sequence of calls. -/
def run (ptrBits : Nat) (usb : Usb) : List Op → NeroHandle × Trace → Option (NeroHandle × Trace)
  | [], s => some s
  | op :: ops, s => (step ptrBits usb s op).bind (run ptrBits usb ops)

/-- The session is valid (`device` non-null and `endpointSize` non-zero) or invalid
(`device` `NULL` and `endpointSize` 0). -/
def Settled (h : NeroHandle) : Prop :=
  (h.device ≠ 0 ∧ h.endpointSize ≠ 0) ∨ (h.device = 0 ∧ h.endpointSize = 0)

/-! ## Arithmetic of `bitsToBytes` and of the chunking -/

theorem bitsToBytes_eq_ceil (x : Nat) (h : x < 2 ^ 32) : bitsToBytes x = (x + 7) / 8 := by
  have h1 : x >>> 3 = x / 8 := by simp [Nat.shiftRight_eq_div_pow]
  have h2 : x &&& 7 = x % 8 := Nat.and_pow_two_sub_one_eq_mod x 3
  unfold bitsToBytes
  rw [h1, h2]
  split <;> omega

theorem numChunks_zero (c : Nat) (hc : 0 < c) : numChunks c 0 = 0 := by
  unfold numChunks
  exact Nat.div_eq_of_lt (by omega)

theorem numChunks_step (c n : Nat) (hc : 0 < c) (hn : 0 < n) :
    numChunks c n = numChunks c (n - min c n) + 1 := by
  unfold numChunks
  by_cases h : c ≤ n
  · rw [Nat.min_eq_left h]
    have : n + c - 1 = (n - c + c - 1) + c := by omega
    rw [this, Nat.add_div_right _ hc]
  · have h' : n < c := Nat.lt_of_not_le h
    rw [Nat.min_eq_right (Nat.le_of_lt h'), Nat.sub_self]
    have e1 : (0 + c - 1) / c = 0 := Nat.div_eq_of_lt (by omega)
    have e2 : (n + c - 1) / c = 1 := by
      have : n + c - 1 = (n - 1) + c := by omega
      rw [this, Nat.add_div_right _ hc, Nat.div_eq_of_lt (by omega)]
    rw [e1, e2]

theorem shiftCalls_zero (handle : NeroHandle) (sd rn : Bool) (i o : Nat)
    (hc : 0 < handle.endpointSize) : shiftCalls handle sd rn i o 0 = [] := by
  simp [shiftCalls, numChunks_zero _ hc]

theorem shiftCalls_step (handle : NeroHandle) (sd rn : Bool) (i o i' o' n : Nat)
    (hc : 0 < handle.endpointSize) (hn : 0 < n)
    (hi : sd = true → i' = i + min handle.endpointSize n)
    (ho : rn = true → o' = o + min handle.endpointSize n) :
    shiftCalls handle sd rn i o n =
      chunkCalls handle sd rn i o n 0 ++
        shiftCalls handle sd rn i' o' (n - min handle.endpointSize n) := by
  unfold shiftCalls
  rw [numChunks_step _ _ hc hn, List.range_succ_eq_map, List.flatMap_cons, List.flatMap_map]
  congr 1
  apply List.flatMap_congr
  intro k hk
  have hk' : k < numChunks handle.endpointSize (n - min handle.endpointSize n) :=
    List.mem_range.mp hk
  have hpos : 0 < n - min handle.endpointSize n := by
    rcases Nat.eq_zero_or_pos (n - min handle.endpointSize n) with h0 | h0
    · rw [h0, numChunks_zero _ hc] at hk'
      exact absurd hk' (Nat.not_lt_zero _)
    · exact h0
  have hmin : min handle.endpointSize n = handle.endpointSize := by
    rcases Nat.le_total handle.endpointSize n with h | h
    · exact Nat.min_eq_left h
    · rw [Nat.min_eq_right h] at hpos
      omega
  rw [hmin] at hi ho ⊢
  have e1 : (k + 1) * handle.endpointSize = handle.endpointSize + k * handle.endpointSize := by
    ring
  have e2 : n - (k + 1) * handle.endpointSize =
      n - handle.endpointSize - k * handle.endpointSize := by
    rw [e1, Nat.sub_add_eq]
  simp only [Function.comp, Nat.succ_eq_add_one, chunkCalls]
  cases sd <;> cases rn <;> simp_all <;> omega

/-! ## The events of the per-chunk transfers -/

theorem doSend_eq (usb : Usb) (tr : Trace) (handle : NeroHandle) (ptr size : Nat) :
    doSend usb tr handle ptr size =
      (if (sendEvent usb tr handle ptr size).status < 0 then NeroStatus.NERO_SEND
        else NeroStatus.NERO_SUCCESS, tr ++ [sendEvent usb tr handle ptr size]) := by
  have e : USB_ENDPOINT_OUT ||| 2 = 0x02 := by decide
  simp only [doSend, usb_bulk_write, sendEvent, e]
  split <;> rfl

theorem doReceive_eq (usb : Usb) (tr : Trace) (handle : NeroHandle) (ptr size : Nat) :
    doReceive usb tr handle ptr size =
      (if (receiveEvent usb tr handle ptr size).status < 0 then NeroStatus.NERO_RECEIVE
        else NeroStatus.NERO_SUCCESS, tr ++ [receiveEvent usb tr handle ptr size]) := by
  have e : USB_ENDPOINT_IN ||| 4 = 0x84 := by decide
  simp only [doReceive, usb_bulk_read, receiveEvent, e]
  split <;> rfl

/-! ## The chunk loop on a transport that never fails -/

theorem shiftLoop_ok (usb : Usb) (handle : NeroHandle) (sendType : SendType) (rn : Bool)
    (hc : 0 < handle.endpointSize) (hc16 : handle.endpointSize < 2 ^ 16)
    (hok : ∀ h c, 0 ≤ (usb h c).status) :
    ∀ (fuel : Nat) (tr : Trace) (numBytes inData outData : Nat),
      numBytes ≤ fuel → numBytes < 2 ^ 32 →
      ∃ new, shiftLoop usb handle sendType rn fuel tr numBytes inData outData =
          ⟨some .NERO_SUCCESS, handle, tr ++ new⟩ ∧
        new.map Event.call =
          shiftCalls handle (decide (sendType = .SEND_DATA)) rn inData outData numBytes := by
  intro fuel
  induction fuel with
  | zero =>
    intro tr numBytes inData outData hf _
    have h0 : numBytes = 0 := by omega
    subst h0
    exact ⟨[], by simp [shiftLoop], by simp [shiftCalls_zero _ _ _ _ _ hc]⟩
  | succ fuel ih =>
    intro tr numBytes inData outData hf h32
    by_cases h0 : numBytes = 0
    · subst h0
      exact ⟨[], by simp [shiftLoop], by simp [shiftCalls_zero _ _ _ _ _ hc]⟩
    · have hpos : 0 < numBytes := Nat.pos_of_ne_zero h0
      have hchunk : (if numBytes ≥ handle.endpointSize then handle.endpointSize
          else numBytes % 2 ^ 16) = min handle.endpointSize numBytes := by
        by_cases hge : numBytes ≥ handle.endpointSize
        · rw [if_pos hge, Nat.min_eq_left hge]
        · rw [if_neg hge, Nat.min_eq_right (by omega), Nat.mod_eq_of_lt (by omega)]
      have hcpos : 0 < min handle.endpointSize numBytes := by
        rw [Nat.lt_min]; exact ⟨hc, hpos⟩
      have hcle : min handle.endpointSize numBytes ≤ numBytes := Nat.min_le_right _ _
      have hnext : (numBytes + 2 ^ 32 - min handle.endpointSize numBytes) % 2 ^ 32 =
          numBytes - min handle.endpointSize numBytes := by
        have : numBytes + 2 ^ 32 - min handle.endpointSize numBytes =
            (numBytes - min handle.endpointSize numBytes) + 2 ^ 32 := by omega
        rw [this, Nat.add_mod_right, Nat.mod_eq_of_lt (by omega)]
      have hnf : ∀ h c, ¬ (usb h c).status < 0 := fun h c => not_lt.mpr (hok h c)
      have hih : ∀ tr' i' o', ∃ new, shiftLoop usb handle sendType rn fuel tr'
            (numBytes - min handle.endpointSize numBytes) i' o' =
            ⟨some .NERO_SUCCESS, handle, tr' ++ new⟩ ∧
          new.map Event.call = shiftCalls handle (decide (sendType = .SEND_DATA)) rn i' o'
            (numBytes - min handle.endpointSize numBytes) :=
        fun tr' i' o' => ih tr' _ i' o' (by omega) (by omega)
      rw [shiftLoop, if_neg h0]
      dsimp only
      rw [hchunk, hnext]
      generalize hcdef : min handle.endpointSize numBytes = c at *
      by_cases hsd : sendType = .SEND_DATA <;> cases rn
      · obtain ⟨new, h1, h2⟩ := hih (tr ++ [sendEvent usb tr handle inData c])
          (inData + c) outData
        refine ⟨sendEvent usb tr handle inData c :: new, ?_, ?_⟩
        · simp [hsd, doSend_eq, sendEvent, hnf] at h1 ⊢
          exact h1
        · rw [shiftCalls_step handle _ _ inData outData (inData + c) outData numBytes hc hpos
            (by simp [hcdef]) (by simp), hcdef, List.map_cons, h2]
          simp [hsd, chunkCalls, sendEvent, hcdef]
      · obtain ⟨new, h1, h2⟩ := hih
          (tr ++ [sendEvent usb tr handle inData c] ++
            [receiveEvent usb (tr ++ [sendEvent usb tr handle inData c]) handle outData c])
          (inData + c) (outData + c)
        refine ⟨sendEvent usb tr handle inData c ::
          receiveEvent usb (tr ++ [sendEvent usb tr handle inData c]) handle outData c ::
            new, ?_, ?_⟩
        · simp [hsd, doSend_eq, doReceive_eq, sendEvent, receiveEvent, hnf] at h1 ⊢
          exact h1
        · rw [shiftCalls_step handle _ _ inData outData (inData + c) (outData + c) numBytes
            hc hpos (by simp [hcdef]) (by simp [hcdef]), hcdef, List.map_cons,
            List.map_cons, h2]
          simp [hsd, chunkCalls, sendEvent, receiveEvent, hcdef]
      · obtain ⟨new, h1, h2⟩ := hih tr inData outData
        refine ⟨new, ?_, ?_⟩
        · simp [hsd] at h1 ⊢
          exact h1
        · rw [shiftCalls_step handle _ _ inData outData inData outData numBytes hc hpos
            (by simp [hsd]) (by simp), hcdef, h2]
          simp [hsd, chunkCalls]
      · obtain ⟨new, h1, h2⟩ := hih (tr ++ [receiveEvent usb tr handle outData c])
          inData (outData + c)
        refine ⟨receiveEvent usb tr handle outData c :: new, ?_, ?_⟩
        · simp [hsd, doReceive_eq, receiveEvent, hnf] at h1 ⊢
          exact h1
        · rw [shiftCalls_step handle _ _ inData outData inData (outData + c) numBytes
            hc hpos (by simp [hsd]) (by simp [hcdef]), hcdef, List.map_cons, h2]
          simp [hsd, chunkCalls, receiveEvent, hcdef]

/-! ## Properties of the prescribed chunking -/

theorem chunkSizes_zero (c : Nat) : chunkSizes c 0 = [] := by
  simp [chunkSizes]

theorem chunkSizes_step (c n : Nat) (hc : 0 < c) (hn : 0 < n) :
    chunkSizes c n = min c n :: chunkSizes c (n - min c n) := by
  unfold chunkSizes
  by_cases h : c ≤ n
  · rw [Nat.min_eq_left h]
    have e1 : n / c = (n - c) / c + 1 := by
      have : n = (n - c) + c := by omega
      conv_lhs => rw [this, Nat.add_div_right _ hc]
    have e2 : n % c = (n - c) % c := by
      have : n = (n - c) + c := by omega
      conv_lhs => rw [this, Nat.add_mod_right]
    rw [e1, e2, List.replicate_succ, List.cons_append]
  · have h' : n < c := Nat.lt_of_not_le h
    rw [Nat.min_eq_right (Nat.le_of_lt h'), Nat.sub_self, Nat.div_eq_of_lt h',
      Nat.mod_eq_of_lt h']
    simp [Nat.ne_of_gt hn]

theorem chunkSizes_props (c : Nat) (hc : 0 < c) :
    ∀ n : Nat,
      (∀ k, k < (chunkSizes c n).length →
        (chunkSizes c n).getD k 0 = min (n - ((chunkSizes c n).take k).sum) c) ∧
      (∀ k, k + 1 < (chunkSizes c n).length → (chunkSizes c n).getD k 0 = c) ∧
      (∀ x ∈ chunkSizes c n, 0 < x) ∧
      (chunkSizes c n).sum = n := by
  intro n
  induction n using Nat.strong_induction_on with
  | _ n ih =>
    rcases Nat.eq_zero_or_pos n with h0 | hn
    · subst h0
      simp [chunkSizes_zero]
    · have hm : 0 < min c n := by rw [Nat.lt_min]; exact ⟨hc, hn⟩
      have hle : min c n ≤ n := Nat.min_le_right _ _
      obtain ⟨p1, p2, p3, p4⟩ := ih (n - min c n) (by omega)
      rw [chunkSizes_step c n hc hn]
      refine ⟨?_, ?_, ?_, ?_⟩
      · intro k hk
        cases k with
        | zero => simp [Nat.min_comm]
        | succ k =>
          have hk' : k < (chunkSizes c (n - min c n)).length := by
            simpa using hk
          have := p1 k hk'
          simp only [List.getD_cons_succ, List.take_succ_cons, List.sum_cons]
          rw [this, Nat.sub_add_eq]
      · intro k hk
        cases k with
        | zero =>
          have hne : chunkSizes c (n - min c n) ≠ [] := by
            intro he
            rw [he] at hk
            simp at hk
          have hpos : 0 < n - min c n := by
            rcases Nat.eq_zero_or_pos (n - min c n) with h | h
            · rw [h, chunkSizes_zero] at hne
              exact absurd rfl hne
            · exact h
          have : min c n = c := by
            rcases Nat.le_total c n with h | h
            · exact Nat.min_eq_left h
            · rw [Nat.min_eq_right h] at hpos
              omega
          simp [this]
        | succ k =>
          have hk' : k + 1 < (chunkSizes c (n - min c n)).length := by
            simpa using hk
          simpa using p2 k hk'
      · intro x hx
        rcases List.mem_cons.mp hx with h | h
        · rw [h]; exact hm
        · exact p3 x h
      · rw [List.sum_cons, p4]
        omega

/-! ## What the prescribed transfers add up to -/

theorem shiftCalls_sentSize (handle : NeroHandle) (rn : Bool)
    (hc : 0 < handle.endpointSize) :
    ∀ n i o : Nat, (shiftCalls handle true rn i o n).filterMap Call.sentSize =
      chunkSizes handle.endpointSize n := by
  intro n
  induction n using Nat.strong_induction_on with
  | _ n ih =>
    intro i o
    rcases Nat.eq_zero_or_pos n with h0 | hn
    · subst h0
      simp [shiftCalls_zero _ _ _ _ _ hc, chunkSizes_zero]
    · have hm : 0 < min handle.endpointSize n := by rw [Nat.lt_min]; exact ⟨hc, hn⟩
      have hle : min handle.endpointSize n ≤ n := Nat.min_le_right _ _
      rw [shiftCalls_step handle true rn i o (i + min handle.endpointSize n)
        (o + min handle.endpointSize n) n hc hn (fun _ => rfl) (fun _ => rfl),
        List.filterMap_append, ih _ (by omega), chunkSizes_step _ n hc hn]
      cases rn <;> simp [chunkCalls, Call.sentSize]

theorem shiftCalls_receivedSize (handle : NeroHandle) (sd : Bool)
    (hc : 0 < handle.endpointSize) :
    ∀ n i o : Nat, (shiftCalls handle sd true i o n).filterMap Call.receivedSize =
      chunkSizes handle.endpointSize n := by
  intro n
  induction n using Nat.strong_induction_on with
  | _ n ih =>
    intro i o
    rcases Nat.eq_zero_or_pos n with h0 | hn
    · subst h0
      simp [shiftCalls_zero _ _ _ _ _ hc, chunkSizes_zero]
    · have hm : 0 < min handle.endpointSize n := by rw [Nat.lt_min]; exact ⟨hc, hn⟩
      have hle : min handle.endpointSize n ≤ n := Nat.min_le_right _ _
      rw [shiftCalls_step handle sd true i o (i + min handle.endpointSize n)
        (o + min handle.endpointSize n) n hc hn (fun _ => rfl) (fun _ => rfl),
        List.filterMap_append, ih _ (by omega), chunkSizes_step _ n hc hn]
      cases sd <;> simp [chunkCalls, Call.receivedSize]

theorem range'_split (p n m : Nat) (h : m ≤ n) :
    List.range' p n = List.range' p m ++ List.range' (p + m) (n - m) := by
  have := List.range'_append p m (n - m) 1
  simp only [Nat.one_mul] at this
  rw [this]
  congr 1
  omega

theorem shiftCalls_sentAddrs (handle : NeroHandle) (rn : Bool)
    (hc : 0 < handle.endpointSize) :
    ∀ n i o : Nat, (shiftCalls handle true rn i o n).flatMap Call.sentAddrs =
      List.range' i n := by
  intro n
  induction n using Nat.strong_induction_on with
  | _ n ih =>
    intro i o
    rcases Nat.eq_zero_or_pos n with h0 | hn
    · subst h0
      simp [shiftCalls_zero _ _ _ _ _ hc]
    · have hm : 0 < min handle.endpointSize n := by rw [Nat.lt_min]; exact ⟨hc, hn⟩
      have hle : min handle.endpointSize n ≤ n := Nat.min_le_right _ _
      rw [shiftCalls_step handle true rn i o (i + min handle.endpointSize n)
        (o + min handle.endpointSize n) n hc hn (fun _ => rfl) (fun _ => rfl),
        List.flatMap_append, ih _ (by omega), range'_split i n _ hle]
      cases rn <;> simp [chunkCalls, Call.sentAddrs]

theorem shiftCalls_receivedAddrs (handle : NeroHandle) (sd : Bool)
    (hc : 0 < handle.endpointSize) :
    ∀ n i o : Nat, (shiftCalls handle sd true i o n).flatMap Call.receivedAddrs =
      List.range' o n := by
  intro n
  induction n using Nat.strong_induction_on with
  | _ n ih =>
    intro i o
    rcases Nat.eq_zero_or_pos n with h0 | hn
    · subst h0
      simp [shiftCalls_zero _ _ _ _ _ hc]
    · have hm : 0 < min handle.endpointSize n := by rw [Nat.lt_min]; exact ⟨hc, hn⟩
      have hle : min handle.endpointSize n ≤ n := Nat.min_le_right _ _
      rw [shiftCalls_step handle sd true i o (i + min handle.endpointSize n)
        (o + min handle.endpointSize n) n hc hn (fun _ => rfl) (fun _ => rfl),
        List.flatMap_append, ih _ (by omega), range'_split o n _ hle]
      cases sd <;> simp [chunkCalls, Call.receivedAddrs]

/-! ## `beginShift` and `neroShift` as a whole -/

theorem beginShift_eq (usb : Usb) (tr : Trace) (handle : NeroHandle) (numBits : Nat)
    (sendType : SendType) (isLast rn : Bool) :
    beginShift usb tr handle numBits sendType isLast rn =
      (if (beginShiftEvent usb tr handle numBits sendType isLast rn).status < 0
        then NeroStatus.NERO_BEGIN_SHIFT else NeroStatus.NERO_SUCCESS,
        tr ++ [beginShiftEvent usb tr handle numBits sendType isLast rn]) := by
  have e : USB_ENDPOINT_OUT ||| USB_TYPE_VENDOR ||| USB_RECIP_DEVICE = 0x40 := by decide
  have e' : CMD_JTAG_CLOCK_DATA = 0x81 := rfl
  simp only [beginShift, usb_control_msg, beginShiftEvent, e, e']
  split <;> rfl

theorem neroShift_eq (ptrBits : Nat) (usb : Usb) (fuel : Nat) (tr : Trace)
    (handle : NeroHandle) (numBits inData outData : Nat) (isLast : Bool) :
    neroShift ptrBits usb fuel tr handle numBits inData outData isLast =
      if (beginShiftEvent usb tr handle numBits (sendTypeOf ptrBits inData) isLast
          (decide (outData ≠ 0))).status < 0 then
        ⟨some .NERO_BEGIN_SHIFT, handle, tr ++ [beginShiftEvent usb tr handle numBits
          (sendTypeOf ptrBits inData) isLast (decide (outData ≠ 0))]⟩
      else
        shiftLoop usb handle (sendTypeOf ptrBits inData) (decide (outData ≠ 0)) fuel
          (tr ++ [beginShiftEvent usb tr handle numBits (sendTypeOf ptrBits inData) isLast
            (decide (outData ≠ 0))])
          (bitsToBytes numBits) inData outData := by
  have hrn : (if outData ≠ 0 then true else false) = decide (outData ≠ 0) := by
    by_cases h : outData = 0 <;> simp [h]
  unfold neroShift
  simp only [hrn, beginShift_eq, sendTypeOf]
  split <;> simp_all

theorem neroShift_ok (ptrBits : Nat) (usb : Usb) (fuel : Nat) (tr : Trace)
    (handle : NeroHandle) (numBits inData outData : Nat) (isLast : Bool)
    (hc : 0 < handle.endpointSize) (hc16 : handle.endpointSize < 2 ^ 16)
    (hbits : numBits < 2 ^ 32) (hok : ∀ h c, 0 ≤ (usb h c).status)
    (hfuel : (numBits + 7) / 8 ≤ fuel) :
    ∃ new, neroShift ptrBits usb fuel tr handle numBits inData outData isLast =
        ⟨some .NERO_SUCCESS, handle,
          tr ++ beginShiftEvent usb tr handle numBits (sendTypeOf ptrBits inData) isLast
            (decide (outData ≠ 0)) :: new⟩ ∧
      new.map Event.call =
        shiftCalls handle (decide (sendTypeOf ptrBits inData = .SEND_DATA))
          (decide (outData ≠ 0)) inData outData ((numBits + 7) / 8) := by
  have hb := bitsToBytes_eq_ceil numBits hbits
  obtain ⟨new, h1, h2⟩ := shiftLoop_ok usb handle (sendTypeOf ptrBits inData)
    (decide (outData ≠ 0)) hc hc16 hok fuel
    (tr ++ [beginShiftEvent usb tr handle numBits (sendTypeOf ptrBits inData) isLast
      (decide (outData ≠ 0))]) ((numBits + 7) / 8) inData outData hfuel (by omega)
  refine ⟨new, ?_, h2⟩
  have hnf : ¬ (beginShiftEvent usb tr handle numBits (sendTypeOf ptrBits inData) isLast
      (decide (outData ≠ 0))).status < 0 := not_lt.mpr (hok _ _)
  rw [neroShift_eq, if_neg hnf, hb, h1]
  simp

theorem sendTypeOf_data (ptrBits inData : Nat) (hz : inData ≠ ZEROS)
    (ho : inData ≠ ONES ptrBits) : sendTypeOf ptrBits inData = .SEND_DATA := by
  simp [sendTypeOf, hz, ho]

/-! ## One iteration of the chunk loop, on any transport -/

theorem shiftLoop_zero_bytes (usb : Usb) (handle : NeroHandle) (st : SendType) (rn : Bool)
    (fuel : Nat) (tr : Trace) (i o : Nat) :
    shiftLoop usb handle st rn fuel tr 0 i o = ⟨some .NERO_SUCCESS, handle, tr⟩ := by
  cases fuel <;> simp [shiftLoop]

theorem shiftLoop_succ (usb : Usb) (handle : NeroHandle) (st : SendType) (rn : Bool)
    (fuel : Nat) (tr : Trace) (n i o : Nat) (hn : n ≠ 0) :
    shiftLoop usb handle st rn (fuel + 1) tr n i o =
      if st = .SEND_DATA then
        if (sendEvent usb tr handle i (chunkOf handle n)).status < 0 then
          ⟨some .NERO_SEND, handle, tr ++ [sendEvent usb tr handle i (chunkOf handle n)]⟩
        else if rn = true then
          if (receiveEvent usb (tr ++ [sendEvent usb tr handle i (chunkOf handle n)]) handle o
              (chunkOf handle n)).status < 0 then
            ⟨some .NERO_RECEIVE, handle,
              tr ++ [sendEvent usb tr handle i (chunkOf handle n),
                receiveEvent usb (tr ++ [sendEvent usb tr handle i (chunkOf handle n)])
                  handle o (chunkOf handle n)]⟩
          else
            shiftLoop usb handle st rn fuel
              (tr ++ [sendEvent usb tr handle i (chunkOf handle n),
                receiveEvent usb (tr ++ [sendEvent usb tr handle i (chunkOf handle n)])
                  handle o (chunkOf handle n)])
              (restOf handle n) (i + chunkOf handle n) (o + chunkOf handle n)
        else
          shiftLoop usb handle st rn fuel
            (tr ++ [sendEvent usb tr handle i (chunkOf handle n)])
            (restOf handle n) (i + chunkOf handle n) o
      else if rn = true then
        if (receiveEvent usb tr handle o (chunkOf handle n)).status < 0 then
          ⟨some .NERO_RECEIVE, handle, tr ++ [receiveEvent usb tr handle o (chunkOf handle n)]⟩
        else
          shiftLoop usb handle st rn fuel
            (tr ++ [receiveEvent usb tr handle o (chunkOf handle n)])
            (restOf handle n) i (o + chunkOf handle n)
      else shiftLoop usb handle st rn fuel tr (restOf handle n) i o := by
  have hcdef : (if n ≥ handle.endpointSize then handle.endpointSize else n % 2 ^ 16) =
      chunkOf handle n := rfl
  have hrdef : (n + 2 ^ 32 - chunkOf handle n) % 2 ^ 32 = restOf handle n := rfl
  rw [shiftLoop, if_neg hn]
  dsimp only
  rw [hcdef, hrdef]
  generalize chunkOf handle n = c
  generalize restOf handle n = r
  simp only [doSend_eq, doReceive_eq]
  by_cases hsd : st = .SEND_DATA
  · simp only [if_pos hsd]
    by_cases hs : (sendEvent usb tr handle i c).status < 0
    · simp [hs]
    · simp only [if_neg hs]
      cases rn
      · simp
      · by_cases hr : (receiveEvent usb (tr ++ [sendEvent usb tr handle i c]) handle o
            c).status < 0
        · simp [hr]
        · simp [hr]
  · simp only [if_neg hsd]
    cases rn
    · simp
    · by_cases hr : (receiveEvent usb tr handle o c).status < 0
      · simp [hr]
      · simp [hr]

/-- Whatever the transport does and however long the loop runs, it only adds bulk OUT
transfers (and only in Data mode) and bulk IN transfers (and only when a response is
needed), and it leaves the handle alone. -/
theorem shiftLoop_kinds (usb : Usb) (handle : NeroHandle) (st : SendType) (rn : Bool) :
    ∀ (fuel : Nat) (tr : Trace) (n i o : Nat),
      (shiftLoop usb handle st rn fuel tr n i o).handle = handle ∧
      ∃ new, (shiftLoop usb handle st rn fuel tr n i o).trace = tr ++ new ∧
        ∀ e ∈ new, (e.call.isBulkWrite = true ∧ st = .SEND_DATA) ∨
          (e.call.isBulkRead = true ∧ rn = true) := by
  intro fuel
  induction fuel with
  | zero =>
    intro tr n i o
    refine ⟨?_, [], ?_, by simp⟩ <;> (rw [shiftLoop]; split <;> simp)
  | succ fuel ih =>
    intro tr n i o
    by_cases hn : n = 0
    · subst hn
      rw [shiftLoop_zero_bytes]
      exact ⟨rfl, [], by simp, by simp⟩
    · rw [shiftLoop_succ usb handle st rn fuel tr n i o hn]
      split_ifs with hsd hs hrn hr hrn hr
      · exact ⟨rfl, [_], rfl, by simp [sendEvent, Call.isBulkWrite, hsd]⟩
      · exact ⟨rfl, [_, _], rfl, by
          simp [sendEvent, receiveEvent, Call.isBulkWrite, Call.isBulkRead, hsd, hrn]⟩
      · obtain ⟨hh, new, h1, h2⟩ := ih (tr ++ [sendEvent usb tr handle i (chunkOf handle n),
          receiveEvent usb (tr ++ [sendEvent usb tr handle i (chunkOf handle n)])
            handle o (chunkOf handle n)]) (restOf handle n) (i + chunkOf handle n)
          (o + chunkOf handle n)
        refine ⟨hh, sendEvent usb tr handle i (chunkOf handle n) ::
          receiveEvent usb (tr ++ [sendEvent usb tr handle i (chunkOf handle n)])
            handle o (chunkOf handle n) :: new, by rw [h1]; simp, ?_⟩
        intro e he
        simp only [List.mem_cons] at he
        rcases he with he | he | he
        · left; rw [he]; exact ⟨rfl, hsd⟩
        · right; rw [he]; exact ⟨rfl, hrn⟩
        · exact h2 e he
      · obtain ⟨hh, new, h1, h2⟩ := ih (tr ++ [sendEvent usb tr handle i (chunkOf handle n)])
          (restOf handle n) (i + chunkOf handle n) o
        refine ⟨hh, sendEvent usb tr handle i (chunkOf handle n) :: new,
          by rw [h1]; simp, ?_⟩
        intro e he
        simp only [List.mem_cons] at he
        rcases he with he | he
        · left; rw [he]; exact ⟨rfl, hsd⟩
        · exact h2 e he
      · exact ⟨rfl, [_], rfl, by simp [receiveEvent, Call.isBulkRead, hrn]⟩
      · obtain ⟨hh, new, h1, h2⟩ := ih
          (tr ++ [receiveEvent usb tr handle o (chunkOf handle n)])
          (restOf handle n) i (o + chunkOf handle n)
        refine ⟨hh, receiveEvent usb tr handle o (chunkOf handle n) :: new,
          by rw [h1]; simp, ?_⟩
        intro e he
        simp only [List.mem_cons] at he
        rcases he with he | he
        · right; rw [he]; exact ⟨rfl, hrn⟩
        · exact h2 e he
      · exact ih tr (restOf handle n) i o

/-! ## Failure handling of the chunk loop -/

theorem abortsAtFailure_nil (usb : Usb) (tr : Trace) :
    AbortsAtFailure usb tr .NERO_SUCCESS [] := by
  refine ⟨by simp, ?_, ?_⟩ <;>
  · intro pre e post h
    exact absurd h (by simp)

theorem abortsAtFailure_fail (usb : Usb) (tr : Trace) (e : Event)
    (hrec : e.status = (usb tr e.call).status) (hfail : e.status < 0) :
    AbortsAtFailure usb tr (phaseError e.call) [e] := by
  refine ⟨?_, ?_, ?_⟩
  · constructor
    · intro h
      cases hc : e.call <;> rw [hc] at h <;> simp [phaseError] at h
    · intro h
      have := h e (by simp)
      omega
  · intro pre e' post h
    cases pre with
    | nil =>
      simp only [List.nil_append, List.cons.injEq] at h
      rw [← h.1]; simpa using hrec
    | cons a pre => simp at h
  · intro pre e' post h _
    cases pre with
    | nil =>
      simp only [List.nil_append, List.cons.injEq] at h
      rw [← h.1]; exact ⟨h.2.symm, rfl⟩
    | cons a pre => simp at h

theorem abortsAtFailure_cons (usb : Usb) (tr : Trace) (e : Event) (st : NeroStatus)
    (new : Trace) (hrec : e.status = (usb tr e.call).status) (hok : ¬ e.status < 0)
    (h : AbortsAtFailure usb (tr ++ [e]) st new) :
    AbortsAtFailure usb tr st (e :: new) := by
  obtain ⟨h1, h2, h3⟩ := h
  refine ⟨?_, ?_, ?_⟩
  · rw [h1]
    constructor
    · intro h e' he'
      rcases List.mem_cons.mp he' with h' | h'
      · rw [h']; omega
      · exact h e' h'
    · intro h e' he'
      exact h e' (List.mem_cons_of_mem _ he')
  · intro pre e' post hsplit
    cases pre with
    | nil =>
      simp only [List.nil_append, List.cons.injEq] at hsplit
      rw [← hsplit.1]; simpa using hrec
    | cons a pre =>
      simp only [List.cons_append, List.cons.injEq] at hsplit
      have := h2 pre e' post hsplit.2
      rw [this, hsplit.1]
      simp
  · intro pre e' post hsplit hfail
    cases pre with
    | nil =>
      simp only [List.nil_append, List.cons.injEq] at hsplit
      rw [← hsplit.1] at hfail
      exact absurd hfail hok
    | cons a pre =>
      simp only [List.cons_append, List.cons.injEq] at hsplit
      exact h3 pre e' post hsplit.2 hfail

theorem chunkOf_eq_min (handle : NeroHandle) (n : Nat) (hc16 : handle.endpointSize < 2 ^ 16) :
    chunkOf handle n = min handle.endpointSize n := by
  unfold chunkOf
  by_cases hge : n ≥ handle.endpointSize
  · rw [if_pos hge, Nat.min_eq_left hge]
  · rw [if_neg hge, Nat.min_eq_right (by omega), Nat.mod_eq_of_lt (by omega)]

theorem restOf_eq_sub (handle : NeroHandle) (n : Nat) (hc16 : handle.endpointSize < 2 ^ 16)
    (h32 : n < 2 ^ 32) : restOf handle n = n - min handle.endpointSize n := by
  unfold restOf
  rw [chunkOf_eq_min handle n hc16]
  have hle : min handle.endpointSize n ≤ n := Nat.min_le_right _ _
  have : n + 2 ^ 32 - min handle.endpointSize n = (n - min handle.endpointSize n) + 2 ^ 32 := by
    omega
  rw [this, Nat.add_mod_right, Nat.mod_eq_of_lt (by omega)]

theorem sendEvent_recorded (usb : Usb) (tr : Trace) (handle : NeroHandle) (p c : Nat) :
    (sendEvent usb tr handle p c).status =
      (usb tr (sendEvent usb tr handle p c).call).status := rfl

theorem receiveEvent_recorded (usb : Usb) (tr : Trace) (handle : NeroHandle) (p c : Nat) :
    (receiveEvent usb tr handle p c).status =
      (usb tr (receiveEvent usb tr handle p c).call).status := rfl

theorem shiftLoop_aborts (usb : Usb) (handle : NeroHandle) (st : SendType) (rn : Bool)
    (hc : 0 < handle.endpointSize) (hc16 : handle.endpointSize < 2 ^ 16) :
    ∀ (fuel : Nat) (tr : Trace) (n i o : Nat), n ≤ fuel → n < 2 ^ 32 →
      ∃ ret new, shiftLoop usb handle st rn fuel tr n i o = ⟨some ret, handle, tr ++ new⟩ ∧
        AbortsAtFailure usb tr ret new ∧
        ∀ e ∈ new, (e.call.isBulkWrite = true ∨ e.call.isBulkRead = true) := by
  intro fuel
  induction fuel with
  | zero =>
    intro tr n i o hf _
    have h0 : n = 0 := by omega
    subst h0
    exact ⟨.NERO_SUCCESS, [], by simp [shiftLoop], abortsAtFailure_nil usb tr, by simp⟩
  | succ fuel ih =>
    intro tr n i o hf h32
    by_cases hn : n = 0
    · subst hn
      rw [shiftLoop_zero_bytes]
      exact ⟨.NERO_SUCCESS, [], by simp, abortsAtFailure_nil usb tr, by simp⟩
    · have hr := restOf_eq_sub handle n hc16 h32
      have hm : 0 < min handle.endpointSize n := by
        rw [Nat.lt_min]; exact ⟨hc, Nat.pos_of_ne_zero hn⟩
      have hle : min handle.endpointSize n ≤ n := Nat.min_le_right _ _
      have hih : ∀ tr' i' o', ∃ ret new,
          shiftLoop usb handle st rn fuel tr' (restOf handle n) i' o' =
            ⟨some ret, handle, tr' ++ new⟩ ∧ AbortsAtFailure usb tr' ret new ∧
          ∀ e ∈ new, (e.call.isBulkWrite = true ∨ e.call.isBulkRead = true) :=
        fun tr' i' o' => ih tr' _ i' o' (by omega) (by omega)
      rw [shiftLoop_succ usb handle st rn fuel tr n i o hn]
      generalize chunkOf handle n = c
      split_ifs with hsd hs hrn hrc hrn hrc
      · exact ⟨_, [sendEvent usb tr handle i c], rfl,
          abortsAtFailure_fail usb tr _ (sendEvent_recorded usb tr handle i c) hs,
          by simp [sendEvent, Call.isBulkWrite]⟩
      · refine ⟨_, [sendEvent usb tr handle i c,
          receiveEvent usb (tr ++ [sendEvent usb tr handle i c]) handle o c], rfl, ?_, ?_⟩
        · exact abortsAtFailure_cons usb tr _ _ _ (sendEvent_recorded usb tr handle i c) hs
            (abortsAtFailure_fail usb _ _ (receiveEvent_recorded usb _ handle o c) hrc)
        · simp [sendEvent, receiveEvent, Call.isBulkWrite, Call.isBulkRead]
      · obtain ⟨ret, new, h1, h2, h3⟩ := hih (tr ++ [sendEvent usb tr handle i c,
          receiveEvent usb (tr ++ [sendEvent usb tr handle i c]) handle o c]) (i + c) (o + c)
        refine ⟨ret, sendEvent usb tr handle i c ::
          receiveEvent usb (tr ++ [sendEvent usb tr handle i c]) handle o c :: new,
          by rw [h1]; simp, ?_, ?_⟩
        · apply abortsAtFailure_cons usb tr _ _ _ (sendEvent_recorded usb tr handle i c) hs
          apply abortsAtFailure_cons usb _ _ _ _ (receiveEvent_recorded usb _ handle o c) hrc
          simpa using h2
        · intro e he
          simp only [List.mem_cons] at he
          rcases he with he | he | he
          · left; rw [he]; rfl
          · right; rw [he]; rfl
          · exact h3 e he
      · obtain ⟨ret, new, h1, h2, h3⟩ := hih (tr ++ [sendEvent usb tr handle i c]) (i + c) o
        refine ⟨ret, sendEvent usb tr handle i c :: new, by rw [h1]; simp, ?_, ?_⟩
        · exact abortsAtFailure_cons usb tr _ _ _ (sendEvent_recorded usb tr handle i c) hs h2
        · intro e he
          simp only [List.mem_cons] at he
          rcases he with he | he
          · left; rw [he]; rfl
          · exact h3 e he
      · exact ⟨_, [receiveEvent usb tr handle o c], rfl,
          abortsAtFailure_fail usb tr _ (receiveEvent_recorded usb tr handle o c) hrc,
          by simp [receiveEvent, Call.isBulkRead]⟩
      · obtain ⟨ret, new, h1, h2, h3⟩ := hih (tr ++ [receiveEvent usb tr handle o c])
          i (o + c)
        refine ⟨ret, receiveEvent usb tr handle o c :: new, by rw [h1]; simp, ?_, ?_⟩
        · exact abortsAtFailure_cons usb tr _ _ _ (receiveEvent_recorded usb tr handle o c)
            hrc h2
        · intro e he
          simp only [List.mem_cons] at he
          rcases he with he | he
          · right; rw [he]; rfl
          · exact h3 e he
      · exact hih tr i o

/-- Whenever the loop returns, on any session and transport, the status and the events
are related as `AbortsAtFailure` says. -/
theorem shiftLoop_aborts_any (usb : Usb) (handle : NeroHandle) (st : SendType) (rn : Bool) :
    ∀ (fuel : Nat) (tr : Trace) (n i o : Nat),
      ∃ new, (shiftLoop usb handle st rn fuel tr n i o).trace = tr ++ new ∧
        ∀ ret, (shiftLoop usb handle st rn fuel tr n i o).status = some ret →
          AbortsAtFailure usb tr ret new := by
  intro fuel
  induction fuel with
  | zero =>
    intro tr n i o
    refine ⟨[], ?_, ?_⟩
    · rw [shiftLoop]; split <;> simp
    · intro ret
      rw [shiftLoop]
      split
      · intro h
        simp only [Option.some.injEq] at h
        rw [← h]
        exact abortsAtFailure_nil usb tr
      · intro h
        simp at h
  | succ fuel ih =>
    intro tr n i o
    by_cases hn : n = 0
    · subst hn
      rw [shiftLoop_zero_bytes]
      refine ⟨[], by simp, ?_⟩
      intro ret h
      simp only [Option.some.injEq] at h
      rw [← h]
      exact abortsAtFailure_nil usb tr
    · rw [shiftLoop_succ usb handle st rn fuel tr n i o hn]
      generalize chunkOf handle n = c
      generalize restOf handle n = r
      split_ifs with hsd hs hrn hrc hrn hrc
      · refine ⟨[sendEvent usb tr handle i c], rfl, ?_⟩
        intro ret h
        simp only [Option.some.injEq] at h
        rw [← h]
        exact abortsAtFailure_fail usb tr _ (sendEvent_recorded usb tr handle i c) hs
      · refine ⟨[sendEvent usb tr handle i c,
          receiveEvent usb (tr ++ [sendEvent usb tr handle i c]) handle o c], rfl, ?_⟩
        intro ret h
        simp only [Option.some.injEq] at h
        rw [← h]
        exact abortsAtFailure_cons usb tr _ _ _ (sendEvent_recorded usb tr handle i c) hs
          (abortsAtFailure_fail usb _ _ (receiveEvent_recorded usb _ handle o c) hrc)
      · obtain ⟨new, h1, h2⟩ := ih (tr ++ [sendEvent usb tr handle i c,
          receiveEvent usb (tr ++ [sendEvent usb tr handle i c]) handle o c]) r (i + c) (o + c)
        refine ⟨sendEvent usb tr handle i c ::
          receiveEvent usb (tr ++ [sendEvent usb tr handle i c]) handle o c :: new,
          by rw [h1]; simp, ?_⟩
        intro ret h
        apply abortsAtFailure_cons usb tr _ _ _ (sendEvent_recorded usb tr handle i c) hs
        apply abortsAtFailure_cons usb _ _ _ _ (receiveEvent_recorded usb _ handle o c) hrc
        simpa using h2 ret h
      · obtain ⟨new, h1, h2⟩ := ih (tr ++ [sendEvent usb tr handle i c]) r (i + c) o
        refine ⟨sendEvent usb tr handle i c :: new, by rw [h1]; simp, ?_⟩
        intro ret h
        exact abortsAtFailure_cons usb tr _ _ _ (sendEvent_recorded usb tr handle i c) hs
          (h2 ret h)
      · refine ⟨[receiveEvent usb tr handle o c], rfl, ?_⟩
        intro ret h
        simp only [Option.some.injEq] at h
        rw [← h]
        exact abortsAtFailure_fail usb tr _ (receiveEvent_recorded usb tr handle o c) hrc
      · obtain ⟨new, h1, h2⟩ := ih (tr ++ [receiveEvent usb tr handle o c]) r i (o + c)
        refine ⟨receiveEvent usb tr handle o c :: new, by rw [h1]; simp, ?_⟩
        intro ret h
        exact abortsAtFailure_cons usb tr _ _ _ (receiveEvent_recorded usb tr handle o c)
          hrc (h2 ret h)
      · exact ih tr r i o

/-- With `endpointSize = 0` every chunk is empty and `numBytes` never decreases: on a
transport that never fails the loop is still running after any number of iterations. -/
theorem shiftLoop_stuck (usb : Usb) (handle : NeroHandle) (st : SendType) (rn : Bool)
    (n : Nat) (hz : handle.endpointSize = 0) (hn : n ≠ 0) (h32 : n < 2 ^ 32)
    (hok : ∀ h c, 0 ≤ (usb h c).status) :
    ∀ (fuel : Nat) (tr : Trace) (i o : Nat),
      (shiftLoop usb handle st rn fuel tr n i o).status = none := by
  have hc : chunkOf handle n = 0 := by simp [chunkOf, hz]
  have hr : restOf handle n = n := by
    unfold restOf
    rw [hc, Nat.sub_zero, Nat.add_mod_right, Nat.mod_eq_of_lt h32]
  have hnf : ∀ h c, ¬ (usb h c).status < 0 := fun h c => not_lt.mpr (hok h c)
  intro fuel
  induction fuel with
  | zero =>
    intro tr i o
    simp [shiftLoop, hn]
  | succ fuel ih =>
    intro tr i o
    rw [shiftLoop_succ usb handle st rn fuel tr n i o hn, hc, hr]
    have h1 : ¬ (sendEvent usb tr handle i 0).status < 0 := hnf _ _
    have h2 : ¬ (receiveEvent usb tr handle o 0).status < 0 := hnf _ _
    have h3 : ¬ (receiveEvent usb (tr ++ [sendEvent usb tr handle i 0]) handle o 0).status < 0 :=
      hnf _ _
    split_ifs <;> exact ih _ _ _

/-! ## Configuration-descriptor blobs -/

theorem recordedFrom_nil (addr init : Nat) : recordedFrom addr init [] = init := rfl

theorem recordedFrom_cons (addr init : Nat) (e : EndpointDescriptor)
    (eps : List EndpointDescriptor) :
    recordedFrom addr init (e :: eps) =
      recordedFrom addr (if e.isBulkAt addr = true then e.wMaxPacketSize else init) eps := by
  unfold recordedFrom
  rw [List.filter_cons]
  by_cases h : e.isBulkAt addr = true
  · rw [if_pos h, if_pos h, List.getLast?_cons]
    cases (List.filter (EndpointDescriptor.isBulkAt addr) eps).getLast? <;> simp
  · rw [if_neg h, if_neg h]

theorem readU8_of (buf : Nat → Nat) (off v : Nat) (hoff : off < 1024) (hv : buf off = v)
    (hlt : v < 256) : readU8 buf off = some v := by
  unfold readU8
  rw [if_pos hoff, hv, Nat.mod_eq_of_lt hlt]

theorem littleEndian16_split (s : Nat) (hs : s < 65536) :
    littleEndian16 (s % 256) (s / 256) = s := by
  unfold littleEndian16
  have : s % 256 + 256 * (s / 256) = s := Nat.mod_add_div s 256
  rw [this]
  exact Nat.mod_eq_of_lt hs

theorem endpointLoop_blob (buf : Nat → Nat) :
    ∀ (eps : List EndpointDescriptor) (p ep2 ep4 : Nat),
      (∀ e ∈ eps, e.WellFormed) →
      p + (eps.flatMap EndpointDescriptor.bytes).length ≤ 1024 →
      (∀ i, i < (eps.flatMap EndpointDescriptor.bytes).length →
        buf (p + i) = (eps.flatMap EndpointDescriptor.bytes).getD i 0) →
      endpointLoop buf eps.length p ep2 ep4 =
        some (recordedFrom 0x02 ep2 eps, recordedFrom 0x84 ep4 eps) := by
  intro eps
  induction eps with
  | nil =>
    intro p ep2 ep4 _ _ _
    simp [endpointLoop, recordedFrom_nil]
  | cons e eps ih =>
    intro p ep2 ep4 hwf hfit hbuf
    obtain ⟨hl, ha, hm, hs⟩ := hwf e (List.mem_cons_self _ _)
    have hlen : (e.bytes).length = 6 + e.rest.length := by
      simp [EndpointDescriptor.bytes]; omega
    rw [List.flatMap_cons] at hfit hbuf
    rw [List.length_append, hlen] at hfit
    have hget : ∀ i, i < 6 → buf (p + i) = e.bytes.getD i 0 := by
      intro i hi
      rw [hbuf i (by rw [List.length_append, hlen]; omega),
        List.getD_append _ _ _ _ (by rw [hlen]; omega)]
    have r0 : readU8 buf p = some (6 + e.rest.length) :=
      readU8_of buf p _ (by omega) (by simpa [EndpointDescriptor.bytes] using hget 0 (by omega)) hl
    have r2 : readU8 buf (p + 2) = some e.bEndpointAddress :=
      readU8_of buf _ _ (by omega) (by simpa [EndpointDescriptor.bytes] using hget 2 (by omega)) ha
    have r3 : readU8 buf (p + 3) = some e.bmAttributes :=
      readU8_of buf _ _ (by omega) (by simpa [EndpointDescriptor.bytes] using hget 3 (by omega)) hm
    have r4 : readU8 buf (p + 4) = some (e.wMaxPacketSize % 256) :=
      readU8_of buf _ _ (by omega) (by simpa [EndpointDescriptor.bytes] using hget 4 (by omega))
        (Nat.mod_lt _ (by omega))
    have r5 : readU8 buf (p + 4 + 1) = some (e.wMaxPacketSize / 256) :=
      readU8_of buf _ _ (by omega) (by simpa [EndpointDescriptor.bytes] using hget 5 (by omega))
        (by omega)
    have r16 : readLE16 buf (p + 4) = some e.wMaxPacketSize := by
      unfold readLE16
      rw [r4, r5]
      simp [littleEndian16_split _ hs]
    have hnext := ih (p + (6 + e.rest.length))
      (if e.isBulkAt 0x02 = true then e.wMaxPacketSize else ep2)
      (if e.isBulkAt 0x84 = true then e.wMaxPacketSize else ep4)
      (fun e' he' => hwf e' (List.mem_cons_of_mem _ he')) (by omega)
      (by
        intro i hi
        have := hbuf (6 + e.rest.length + i) (by rw [List.length_append, hlen]; omega)
        rw [List.getD_append_right _ _ _ _ (by rw [hlen]; omega), hlen] at this
        rw [← Nat.add_assoc] at this
        rw [this]
        congr 1
        omega)
    rw [List.length_cons, endpointLoop, r3]
    simp only [r2, r16, r0, Option.map_some']
    rw [recordedFrom_cons, recordedFrom_cons, ← hnext]
    unfold EndpointDescriptor.isBulkAt
    by_cases hb : e.bmAttributes = 2
    · by_cases h2 : e.bEndpointAddress = 2
      · simp [hb, h2]
      · by_cases h4 : e.bEndpointAddress = 132
        · simp [hb, h4]
        · simp [hb, h2, h4]
    · simp [hb]

theorem walkDescriptors_blob (buf : Nat → Nat) (b : DescriptorBlob) (hwf : b.WellFormed)
    (hbuf : ∀ i, i < b.bytes.length → buf i = b.bytes.getD i 0) :
    walkDescriptors buf =
      some (recordedSize 0x02 b.endpoints, recordedSize 0x84 b.endpoints) := by
  obtain ⟨hcl, hil, hn, hep, hfit⟩ := hwf
  have hlen : b.bytes.length = (1 + b.configRest.length) + ((5 + b.ifaceRest.length) +
      (b.endpoints.flatMap EndpointDescriptor.bytes).length) := by
    simp [DescriptorBlob.bytes]; omega
  rw [hlen] at hfit
  have hcfg : ∀ i, i < 1 + b.configRest.length → buf i =
      ((1 + b.configRest.length) :: b.configRest).getD i 0 := by
    intro i hi
    rw [hbuf i (by omega), DescriptorBlob.bytes, List.getD_append _ _ _ _ (by simp; omega)]
  have hrest : ∀ i, i < (5 + b.ifaceRest.length) +
      (b.endpoints.flatMap EndpointDescriptor.bytes).length →
      buf (1 + b.configRest.length + i) =
        (((5 + b.ifaceRest.length) :: b.ifDescriptorType :: b.bInterfaceNumber ::
          b.bAlternateSetting :: b.endpoints.length :: b.ifaceRest) ++
          b.endpoints.flatMap EndpointDescriptor.bytes).getD i 0 := by
    intro i hi
    rw [hbuf _ (by omega), DescriptorBlob.bytes,
      List.getD_append_right _ _ _ _ (by simp; omega)]
    congr 1
    simp
    omega
  have hif : ∀ i, i < 5 → buf (1 + b.configRest.length + i) =
      ((5 + b.ifaceRest.length) :: b.ifDescriptorType :: b.bInterfaceNumber ::
          b.bAlternateSetting :: b.endpoints.length :: b.ifaceRest).getD i 0 := by
    intro i hi
    rw [hrest i (by omega), List.getD_append _ _ _ _ (by simp; omega)]
  have hepb : ∀ i, i < (b.endpoints.flatMap EndpointDescriptor.bytes).length →
      buf (1 + b.configRest.length + (5 + b.ifaceRest.length) + i) =
        (b.endpoints.flatMap EndpointDescriptor.bytes).getD i 0 := by
    intro i hi
    have := hrest (5 + b.ifaceRest.length + i) (by omega)
    rw [List.getD_append_right _ _ _ _ (by simp; omega)] at this
    have e : 1 + b.configRest.length + (5 + b.ifaceRest.length) + i =
        1 + b.configRest.length + (5 + b.ifaceRest.length + i) := by omega
    rw [e, this]
    congr 1
    simp
    omega
  have r0 : readU8 buf 0 = some (1 + b.configRest.length) :=
    readU8_of buf 0 _ (by omega) (by simpa using hcfg 0 (by omega)) hcl
  have r1 : readU8 buf (1 + b.configRest.length) = some (5 + b.ifaceRest.length) :=
    readU8_of buf _ _ (by omega) (by simpa using hif 0 (by omega)) hil
  have r2 : readU8 buf (1 + b.configRest.length + 4) = some b.endpoints.length :=
    readU8_of buf _ _ (by omega) (by simpa using hif 4 (by omega)) hn
  unfold walkDescriptors
  rw [r0]
  simp only [r1, r2]
  exact endpointLoop_blob buf b.endpoints _ 0 0 hep (by omega) hepb

theorem recordedSize_present (addr : Nat) (eps : List EndpointDescriptor)
    (h : recordedSize addr eps ≠ 0) :
    ∃ e ∈ eps, e.bmAttributes = 0x02 ∧ e.bEndpointAddress = addr ∧
      e.wMaxPacketSize = recordedSize addr eps := by
  unfold recordedSize recordedFrom at h ⊢
  cases hl : (eps.filter (EndpointDescriptor.isBulkAt addr)).getLast? with
  | none => rw [hl] at h; simp at h
  | some e =>
    have hmem := List.mem_of_getLast?_eq_some hl
    rw [List.mem_filter] at hmem
    have hb := hmem.2
    simp only [EndpointDescriptor.isBulkAt, Bool.and_eq_true, decide_eq_true_eq] at hb
    exact ⟨e, hmem.1, hb.1, hb.2, by simp⟩

theorem recordedSize_unique (addr : Nat) (eps : List EndpointDescriptor)
    (e : EndpointDescriptor) (he : e ∈ eps) (hb : e.bmAttributes = 0x02)
    (ha : e.bEndpointAddress = addr)
    (huniq : ∀ e' ∈ eps, e'.bmAttributes = 0x02 → e'.bEndpointAddress = addr → e' = e) :
    recordedSize addr eps = e.wMaxPacketSize := by
  have hin : e ∈ eps.filter (EndpointDescriptor.isBulkAt addr) := by
    rw [List.mem_filter]
    exact ⟨he, by simp [EndpointDescriptor.isBulkAt, hb, ha]⟩
  unfold recordedSize recordedFrom
  cases hl : (eps.filter (EndpointDescriptor.isBulkAt addr)).getLast? with
  | none =>
    rw [List.getLast?_eq_none_iff] at hl
    rw [hl] at hin
    simp at hin
  | some e' =>
    have hmem := List.mem_of_getLast?_eq_some hl
    rw [List.mem_filter] at hmem
    have hb' := hmem.2
    simp only [EndpointDescriptor.isBulkAt, Bool.and_eq_true, decide_eq_true_eq] at hb'
    rw [huniq e' hmem.1 hb'.1 hb'.2]
    simp

theorem setEndpointSize_eq (usb : Usb) (tr : Trace) (handle : NeroHandle) :
    setEndpointSize usb tr handle =
      if (usb tr (descriptorQuery handle.device)).status < 0 then
        some (.NERO_ENDPOINTS, ⟨handle.device, 0⟩,
          tr ++ [⟨descriptorQuery handle.device, (usb tr (descriptorQuery handle.device)).status⟩])
      else
        match (if (usb tr (descriptorQuery handle.device)).status > 0
            then walkDescriptors (usb tr (descriptorQuery handle.device)).data
            else some (0, 0)) with
        | none => none
        | some (ep2size, ep4size) =>
          if ep2size ≠ 0 ∧ ep4size ≠ 0 ∧ ep2size = ep4size then
            some (.NERO_SUCCESS, ⟨handle.device, ep2size⟩,
              tr ++ [⟨descriptorQuery handle.device,
                (usb tr (descriptorQuery handle.device)).status⟩])
          else
            some (.NERO_ENDPOINTS, ⟨handle.device, 0⟩,
              tr ++ [⟨descriptorQuery handle.device,
                (usb tr (descriptorQuery handle.device)).status⟩]) := by
  have e : USB_ENDPOINT_IN ||| USB_TYPE_STANDARD ||| USB_RECIP_DEVICE = 0x80 := by decide
  have e' : USB_REQ_GET_DESCRIPTOR = 0x06 := rfl
  simp only [setEndpointSize, usb_control_msg, e, e', descriptorQuery]
  split
  · rfl
  · split
    · rfl
    · rename_i ep2 ep4 _
      by_cases h2 : ep2 = 0
      · simp [h2]
      · by_cases h4 : ep4 = 0
        · simp [h2, h4]
        · by_cases h : ep2 = ep4
          · simp [h2, h4, h]
          · simp [h2, h4, h]

/-! ## Opening and closing a session -/

theorem setJtagMode_eq (usb : Usb) (tr : Trace) (handle : NeroHandle) (enable : Bool) :
    setJtagMode usb tr handle enable =
      (if (usb tr (modeCall handle.device (if enable then MODE_JTAG else 0))).status < 0
        then NeroStatus.NERO_ENABLE else NeroStatus.NERO_SUCCESS,
        tr ++ [⟨modeCall handle.device (if enable then MODE_JTAG else 0),
          (usb tr (modeCall handle.device (if enable then MODE_JTAG else 0))).status⟩]) := by
  have e : USB_ENDPOINT_OUT ||| USB_TYPE_VENDOR ||| USB_RECIP_DEVICE = 0x40 := by decide
  have e' : CMD_MODE_STATUS = 0x80 := rfl
  simp only [setJtagMode, usb_control_msg, modeCall, e, e']
  cases enable <;> simp only [if_true, if_false, Bool.false_eq_true] <;> split <;> rfl

theorem setEndpointSize_shape (usb : Usb) (tr : Trace) (handle : NeroHandle)
    (r : NeroStatus × NeroHandle × Trace) (h : setEndpointSize usb tr handle = some r) :
    r.2.1.device = handle.device ∧
    r.2.2 = tr ++ [⟨descriptorQuery handle.device,
      (usb tr (descriptorQuery handle.device)).status⟩] ∧
    (r.1 ≠ .NERO_SUCCESS → r.1 = .NERO_ENDPOINTS ∧ r.2.1.endpointSize = 0) := by
  rw [setEndpointSize_eq] at h
  split at h
  · simp only [Option.some.injEq] at h
    rw [← h]; simp
  · split at h
    · exact absurd h (by simp)
    · split at h <;>
      · simp only [Option.some.injEq] at h
        rw [← h]; simp

theorem setEndpointSize_isSome (usb : Usb) (tr : Trace) (handle : NeroHandle)
    (h : (usb tr (descriptorQuery handle.device)).status ≤ 0 ∨
      (walkDescriptors (usb tr (descriptorQuery handle.device)).data).isSome = true) :
    ∃ r, setEndpointSize usb tr handle = some r := by
  rw [setEndpointSize_eq]
  split
  · exact ⟨_, rfl⟩
  · rename_i hf
    by_cases hpos : (usb tr (descriptorQuery handle.device)).status > 0
    · rcases h with h | h
      · omega
      · rw [if_pos hpos]
        obtain ⟨w, hw⟩ := Option.isSome_iff_exists.mp h
        rw [hw]
        obtain ⟨a, b⟩ := w
        simp only
        split <;> exact ⟨_, rfl⟩
    · rw [if_neg hpos]
      simp only
      split <;> exact ⟨_, rfl⟩

/-! ## Termination of the chunk loop, and sequences of calls -/

/-- On any transport the loop returns once the fuel covers the number of chunks. -/
theorem shiftLoop_terminates (usb : Usb) (handle : NeroHandle) (st : SendType) (rn : Bool)
    (hc : 0 < handle.endpointSize) (hc16 : handle.endpointSize < 2 ^ 16) :
    ∀ (fuel : Nat) (tr : Trace) (n i o : Nat), n < 2 ^ 32 →
      numChunks handle.endpointSize n ≤ fuel →
      (shiftLoop usb handle st rn fuel tr n i o).status ≠ none := by
  intro fuel
  induction fuel with
  | zero =>
    intro tr n i o h32 hf
    by_cases hn : n = 0
    · subst hn
      simp [shiftLoop]
    · have := numChunks_step handle.endpointSize n hc (Nat.pos_of_ne_zero hn)
      omega
  | succ fuel ih =>
    intro tr n i o h32 hf
    by_cases hn : n = 0
    · subst hn
      rw [shiftLoop_zero_bytes]
      simp
    · have hstep := numChunks_step handle.endpointSize n hc (Nat.pos_of_ne_zero hn)
      have hr := restOf_eq_sub handle n hc16 h32
      have hle : min handle.endpointSize n ≤ n := Nat.min_le_right _ _
      have hih : ∀ tr' i' o',
          (shiftLoop usb handle st rn fuel tr' (restOf handle n) i' o').status ≠ none :=
        fun tr' i' o' => ih tr' _ i' o' (by omega) (by rw [hr]; omega)
      rw [shiftLoop_succ usb handle st rn fuel tr n i o hn]
      split_ifs
      · simp
      · simp
      · exact hih _ _ _
      · exact hih _ _ _
      · simp
      · exact hih _ _ _
      · exact hih _ _ _

/-- On a transport that never fails the loop returns exactly when the fuel covers the
number of chunks, whatever the send type and whether or not a response is needed. -/
theorem shiftLoop_fuel (usb : Usb) (handle : NeroHandle) (st : SendType) (rn : Bool)
    (hc : 0 < handle.endpointSize) (hc16 : handle.endpointSize < 2 ^ 16)
    (hok : ∀ h c, 0 ≤ (usb h c).status) :
    ∀ (fuel : Nat) (tr : Trace) (n i o : Nat), n < 2 ^ 32 →
      (shiftLoop usb handle st rn fuel tr n i o).status =
        if numChunks handle.endpointSize n ≤ fuel then some .NERO_SUCCESS else none := by
  have hnf : ∀ h c, ¬ (usb h c).status < 0 := fun h c => not_lt.mpr (hok h c)
  intro fuel
  induction fuel with
  | zero =>
    intro tr n i o h32
    by_cases hn : n = 0
    · subst hn
      simp [shiftLoop, numChunks_zero _ hc]
    · have := numChunks_step handle.endpointSize n hc (Nat.pos_of_ne_zero hn)
      rw [if_neg (by omega)]
      simp [shiftLoop, hn]
  | succ fuel ih =>
    intro tr n i o h32
    by_cases hn : n = 0
    · subst hn
      rw [shiftLoop_zero_bytes]
      simp [numChunks_zero _ hc]
    · have hstep := numChunks_step handle.endpointSize n hc (Nat.pos_of_ne_zero hn)
      have hr := restOf_eq_sub handle n hc16 h32
      have hle : min handle.endpointSize n ≤ n := Nat.min_le_right _ _
      have hih : ∀ tr' i' o',
          (shiftLoop usb handle st rn fuel tr' (restOf handle n) i' o').status =
            if numChunks handle.endpointSize n ≤ fuel + 1 then some .NERO_SUCCESS
            else none := by
        intro tr' i' o'
        rw [ih tr' _ i' o' (by omega), hr]
        by_cases h : numChunks handle.endpointSize (n - min handle.endpointSize n) ≤ fuel
        · rw [if_pos h, if_pos (by omega)]
        · rw [if_neg h, if_neg (by omega)]
      rw [shiftLoop_succ usb handle st rn fuel tr n i o hn]
      generalize (if numChunks handle.endpointSize n ≤ fuel + 1 then some NeroStatus.NERO_SUCCESS
        else none) = R at hih ⊢
      have h1 : ¬ (sendEvent usb tr handle i (chunkOf handle n)).status < 0 := hnf _ _
      have h2 : ¬ (receiveEvent usb tr handle o (chunkOf handle n)).status < 0 := hnf _ _
      have h3 : ¬ (receiveEvent usb (tr ++ [sendEvent usb tr handle i (chunkOf handle n)])
          handle o (chunkOf handle n)).status < 0 := hnf _ _
      split_ifs <;> exact hih _ _ _

/-- One iteration of the loop, on any transport: with `numBytes ≠ 0` the chunk is
non-zero and at most `numBytes`, and the iteration either returns with a failure status
or goes on with `numBytes` decreased by the chunk. -/
theorem shiftLoop_iteration (usb : Usb) (handle : NeroHandle) (st : SendType) (rn : Bool)
    (hc : 0 < handle.endpointSize) (hc16 : handle.endpointSize < 2 ^ 16)
    (fuel : Nat) (tr : Trace) (n i o : Nat) (hn : n ≠ 0) (h32 : n < 2 ^ 32) :
    0 < min handle.endpointSize n ∧ min handle.endpointSize n ≤ n ∧
    ((∃ ret tr', shiftLoop usb handle st rn (fuel + 1) tr n i o = ⟨some ret, handle, tr'⟩ ∧
        ret ≠ .NERO_SUCCESS) ∨
      ∃ tr' i' o', shiftLoop usb handle st rn (fuel + 1) tr n i o =
        shiftLoop usb handle st rn fuel tr' (n - min handle.endpointSize n) i' o') := by
  have hr := restOf_eq_sub handle n hc16 h32
  refine ⟨by rw [Nat.lt_min]; exact ⟨hc, Nat.pos_of_ne_zero hn⟩, Nat.min_le_right _ _, ?_⟩
  rw [shiftLoop_succ usb handle st rn fuel tr n i o hn, hr]
  split_ifs
  · exact Or.inl ⟨_, _, rfl, by decide⟩
  · exact Or.inl ⟨_, _, rfl, by decide⟩
  · exact Or.inr ⟨_, _, _, rfl⟩
  · exact Or.inr ⟨_, _, _, rfl⟩
  · exact Or.inl ⟨_, _, rfl, by decide⟩
  · exact Or.inr ⟨_, _, _, rfl⟩
  · exact Or.inr ⟨_, _, _, rfl⟩

theorem setEndpointSize_success (usb : Usb) (tr : Trace) (handle h1 : NeroHandle)
    (tr1 : Trace) (h : setEndpointSize usb tr handle = some (.NERO_SUCCESS, h1, tr1)) :
    h1.device = handle.device ∧ h1.endpointSize ≠ 0 := by
  rw [setEndpointSize_eq] at h
  split at h
  · simp at h
  · split at h
    · exact absurd h (by simp)
    · rename_i ep2 ep4 _
      split at h
      · rename_i hc
        simp only [Option.some.injEq, Prod.mk.injEq, true_and] at h
        rw [← h.1]
        exact ⟨rfl, hc.1⟩
      · simp at h

theorem neroInitialise_handle (usb : Usb) (tr : Trace) (device : Nat) (handle : NeroHandle)
    (o : Outcome) (h : neroInitialise usb tr device handle = some o) :
    (o.status = .NERO_SUCCESS ∧ o.handle.device = device ∧ o.handle.endpointSize ≠ 0) ∨
    (o.status ≠ .NERO_SUCCESS ∧ o.handle = ⟨0, 0⟩) := by
  unfold neroInitialise at h
  dsimp only at h
  split at h
  · exact absurd h (by simp)
  · rename_i nStatus h1 tr1 hs
    split at h
    · simp only [Option.some.injEq] at h
      rw [← h]
      exact Or.inr ⟨by simp, rfl⟩
    · rename_i hst
      have hst' : nStatus = .NERO_SUCCESS := by
        by_contra hne
        exact hst hne
      subst hst'
      split at h
      · simp only [Option.some.injEq] at h
        rw [← h]
        exact Or.inr ⟨by simp, rfl⟩
      · simp only [Option.some.injEq] at h
        rw [← h]
        have := setEndpointSize_success usb tr _ h1 tr1 hs
        exact Or.inl ⟨rfl, this.1, this.2⟩

theorem neroClose_handle (usb : Usb) (tr : Trace) (handle : NeroHandle) :
    (neroClose usb tr handle).handle = ⟨0, 0⟩ := by
  unfold neroClose
  split
  · dsimp only
    split <;> rfl
  · rfl

theorem neroShift_handle (ptrBits : Nat) (usb : Usb) (fuel : Nat) (tr : Trace)
    (handle : NeroHandle) (numBits inData outData : Nat) (isLast : Bool) :
    (neroShift ptrBits usb fuel tr handle numBits inData outData isLast).handle = handle := by
  rw [neroShift_eq]
  split
  · rfl
  · exact (shiftLoop_kinds usb handle _ _ fuel _ _ _ _).1

theorem neroClockFSM_handle (usb : Usb) (tr : Trace) (handle : NeroHandle) (p c : Nat) :
    (neroClockFSM usb tr handle p c).handle = handle := by
  unfold neroClockFSM
  dsimp only
  split <;> rfl

theorem neroClocks_handle (usb : Usb) (tr : Trace) (handle : NeroHandle) (n : Nat) :
    (neroClocks usb tr handle n).handle = handle := by
  unfold neroClocks
  dsimp only
  split <;> rfl

theorem step_frame (ptrBits : Nat) (usb : Usb) (s : NeroHandle × Trace) (op : Op)
    (hop : op.resets = false) : ∃ tr', step ptrBits usb s op = some (s.1, tr') := by
  cases op with
  | initialise d => simp [Op.resets] at hop
  | close => simp [Op.resets] at hop
  | shift fuel nb i o l =>
    exact ⟨(neroShift ptrBits usb fuel s.2 s.1 nb i o l).trace,
      by simp only [step, neroShift_handle]⟩
  | clockFSM p c =>
    exact ⟨(neroClockFSM usb s.2 s.1 p c).trace, by simp only [step, neroClockFSM_handle]⟩
  | clocks n =>
    exact ⟨(neroClocks usb s.2 s.1 n).trace, by simp only [step, neroClocks_handle]⟩

theorem step_resets (ptrBits : Nat) (usb : Usb) (s s' : NeroHandle × Trace) (op : Op)
    (hop : op.resets = true) (hdev : ∀ d, op = .initialise d → d ≠ 0)
    (h : step ptrBits usb s op = some s') : Settled s'.1 := by
  cases op with
  | initialise d =>
    simp only [step, Option.map_eq_some'] at h
    obtain ⟨o, ho, hs⟩ := h
    rw [← hs]
    rcases neroInitialise_handle usb s.2 d s.1 o ho with ⟨_, h1, h2⟩ | ⟨_, h1⟩
    · exact Or.inl ⟨by rw [h1]; exact hdev d rfl, h2⟩
    · exact Or.inr (by rw [h1]; exact ⟨rfl, rfl⟩)
  | close =>
    simp only [step, Option.some.injEq] at h
    rw [← h]
    exact Or.inr (by rw [neroClose_handle]; exact ⟨rfl, rfl⟩)
  | shift fuel nb i o l => simp [Op.resets] at hop
  | clockFSM p c => simp [Op.resets] at hop
  | clocks n => simp [Op.resets] at hop

theorem run_settled (ptrBits : Nat) (usb : Usb) :
    ∀ (ops : List Op) (s s' : NeroHandle × Trace),
      (∀ d, Op.initialise d ∈ ops → d ≠ 0) →
      run ptrBits usb ops s = some s' →
      (Settled s.1 ∨ ∃ op ∈ ops, op.resets = true) → Settled s'.1 := by
  intro ops
  induction ops with
  | nil =>
    intro s s' _ hrun hs
    simp only [run, Option.some.injEq] at hrun
    rw [← hrun]
    rcases hs with hs | ⟨op, hop, _⟩
    · exact hs
    · simp at hop
  | cons op ops ih =>
    intro s s' hdev hrun hs
    simp only [run, Option.bind_eq_some] at hrun
    obtain ⟨s1, h1, h2⟩ := hrun
    apply ih s1 s' (fun d hd => hdev d (List.mem_cons_of_mem _ hd)) h2
    by_cases hop : op.resets = true
    · exact Or.inl (step_resets ptrBits usb s s1 op hop
        (fun d hd => hdev d (by rw [hd]; exact List.mem_cons_self _ _)) h1)
    · have hop' : op.resets = false := by simpa using hop
      obtain ⟨tr', hf⟩ := step_frame ptrBits usb s op hop'
      rw [hf] at h1
      simp only [Option.some.injEq] at h1
      rcases hs with hs | ⟨op', hmem, hr⟩
      · left; rw [← h1]; exact hs
      · rcases List.mem_cons.mp hmem with he | he
        · rw [he] at hr; exact absurd hr hop
        · exact Or.inr ⟨op', he, hr⟩

theorem run_frame (ptrBits : Nat) (usb : Usb) :
    ∀ (ops : List Op) (s : NeroHandle × Trace), (∀ op ∈ ops, op.resets = false) →
      ∃ tr', run ptrBits usb ops s = some (s.1, tr') := by
  intro ops
  induction ops with
  | nil => intro s _; exact ⟨s.2, rfl⟩
  | cons op ops ih =>
    intro s h
    obtain ⟨tr1, h1⟩ := step_frame ptrBits usb s op (h op (List.mem_cons_self _ _))
    obtain ⟨tr2, h2⟩ := ih (s.1, tr1) (fun op' h' => h op' (List.mem_cons_of_mem _ h'))
    exact ⟨tr2, by simp only [run, h1, Option.some_bind, h2]⟩

theorem run_undefined (ptrBits : Nat) (usb : Usb) :
    ∀ (ops : List Op) (s : NeroHandle × Trace), run ptrBits usb ops s = none →
      ∃ pre d post s1, ops = pre ++ Op.initialise d :: post ∧
        run ptrBits usb pre s = some s1 ∧ neroInitialise usb s1.2 d s1.1 = none := by
  intro ops
  induction ops with
  | nil => intro s h; simp [run] at h
  | cons op ops ih =>
    intro s h
    cases hs : step ptrBits usb s op with
    | none =>
      cases op with
      | initialise d =>
        refine ⟨[], d, ops, s, rfl, rfl, ?_⟩
        simpa [step] using hs
      | close => simp [step] at hs
      | shift fuel nb i o l => simp [step] at hs
      | clockFSM p c => simp [step] at hs
      | clocks n => simp [step] at hs
    | some s1 =>
      simp only [run, hs, Option.some_bind] at h
      obtain ⟨pre, d, post, s2, h1, h2, h3⟩ := ih s1 h
      exact ⟨op :: pre, d, post, s2, by rw [h1]; rfl, by simp only [run, hs, Option.some_bind, h2],
        h3⟩

/-! ## Main results -/

/-- C1: on a session with `0 < endpointSize`, for every 32-bit `numBits` and a transport
that never fails, `neroShift` returns `NERO_SUCCESS` (given fuel for its iterations) and
the sizes it passes to its bulk OUT transfers (Data mode) and to its bulk IN transfers
(receive buffer present) are the list `sizes` in which every chunk is
`min(remaining bytes, endpointSize)`, every chunk but the last is `endpointSize`, every
chunk (so the last one too) is non-zero, and the sum is `ceil(numBits/8)`; `sizes` is
`endpointSize` repeated, followed by the remainder when there is one. -/
theorem neroShift_chunk_partition (ptrBits : Nat) (usb : Usb) (fuel : Nat) (tr : Trace)
    (handle : NeroHandle) (numBits inData outData : Nat) (isLast : Bool)
    (hc : 0 < handle.endpointSize) (hc16 : handle.endpointSize < 2 ^ 16)
    (hbits : numBits < 2 ^ 32) (hok : ∀ h c, 0 ≤ (usb h c).status)
    (hfuel : (numBits + 7) / 8 ≤ fuel) :
    ∃ new sizes,
      neroShift ptrBits usb fuel tr handle numBits inData outData isLast =
        ⟨some .NERO_SUCCESS, handle, tr ++ new⟩ ∧
      (inData ≠ ZEROS ∧ inData ≠ ONES ptrBits → sentSizes new = sizes) ∧
      (outData ≠ 0 → receivedSizes new = sizes) ∧
      sizes = chunkSizes handle.endpointSize ((numBits + 7) / 8) ∧
      (∀ k, k < sizes.length →
        sizes.getD k 0 = min ((numBits + 7) / 8 - (sizes.take k).sum) handle.endpointSize) ∧
      (∀ k, k + 1 < sizes.length → sizes.getD k 0 = handle.endpointSize) ∧
      (∀ x ∈ sizes, 0 < x) ∧
      sizes.sum = (numBits + 7) / 8 := by
  obtain ⟨new, h1, h2⟩ := neroShift_ok ptrBits usb fuel tr handle numBits inData outData
    isLast hc hc16 hbits hok hfuel
  obtain ⟨p1, p2, p3, p4⟩ := chunkSizes_props handle.endpointSize hc ((numBits + 7) / 8)
  refine ⟨_ :: new, chunkSizes handle.endpointSize ((numBits + 7) / 8), h1, ?_, ?_, rfl,
    p1, p2, p3, p4⟩
  · rintro ⟨hz, ho⟩
    rw [sendTypeOf_data ptrBits inData hz ho] at h2
    simp only [sentSizes, List.map_cons, h2, beginShiftEvent, List.filterMap_cons,
      Call.sentSize, decide_True]
    exact shiftCalls_sentSize handle _ hc _ _ _
  · intro hout
    simp only [receivedSizes, List.map_cons, h2, beginShiftEvent, List.filterMap_cons,
      Call.receivedSize, hout, ne_eq, not_false_eq_true, decide_True]
    exact shiftCalls_receivedSize handle _ hc _ _ _

/-- Witness for C1: 513 bits (`chunkSize*8+1`) on a session with `endpointSize = 64`. -/
theorem neroShift_chunk_partition_witness :
    (0 < (⟨1, 64⟩ : NeroHandle).endpointSize ∧ (513 + 7) / 8 ≤ 65) ∧
    ∃ new sizes,
      neroShift 64 okUsb 65 [] ⟨1, 64⟩ 513 4096 8192 true =
        ⟨some .NERO_SUCCESS, ⟨1, 64⟩, [] ++ new⟩ ∧
      (4096 ≠ ZEROS ∧ 4096 ≠ ONES 64 → sentSizes new = sizes) ∧
      (8192 ≠ 0 → receivedSizes new = sizes) ∧
      sizes = chunkSizes (⟨1, 64⟩ : NeroHandle).endpointSize ((513 + 7) / 8) ∧
      (∀ k, k < sizes.length →
        sizes.getD k 0 =
          min ((513 + 7) / 8 - (sizes.take k).sum) (⟨1, 64⟩ : NeroHandle).endpointSize) ∧
      (∀ k, k + 1 < sizes.length → sizes.getD k 0 = (⟨1, 64⟩ : NeroHandle).endpointSize) ∧
      (∀ x ∈ sizes, 0 < x) ∧
      sizes.sum = (513 + 7) / 8 :=
  ⟨⟨by decide, by decide⟩,
    neroShift_chunk_partition 64 okUsb 65 [] ⟨1, 64⟩ 513 4096 8192 true (by decide)
      (by decide) (by decide) (fun _ _ => le_refl _) (by decide)⟩

/-- C2: on a session with `0 < endpointSize`, with a Data-mode send buffer, a receive
buffer and a transport that never fails, the calls of `neroShift` are the begin-shift
control transfer followed, for chunk `k = 0, 1, 2, ...` in this order, by one bulk OUT on
endpoint `0x02` from address `inData + k * endpointSize` and then one bulk IN on endpoint
`0x84` to address `outData + k * endpointSize` of the same length; the bytes sent are,
in order, the first `ceil(numBits/8)` bytes of the send buffer, and the addresses
received into are, in order, the first `ceil(numBits/8)` positions of the receive
buffer. -/
theorem neroShift_data_transfers (ptrBits : Nat) (usb : Usb) (fuel : Nat) (tr : Trace)
    (handle : NeroHandle) (numBits inData outData : Nat) (isLast : Bool) (mem : Nat → Nat)
    (hc : 0 < handle.endpointSize) (hc16 : handle.endpointSize < 2 ^ 16)
    (hbits : numBits < 2 ^ 32) (hok : ∀ h c, 0 ≤ (usb h c).status)
    (hfuel : (numBits + 7) / 8 ≤ fuel)
    (hz : inData ≠ ZEROS) (ho : inData ≠ ONES ptrBits) (hout : outData ≠ 0) :
    ∃ new,
      neroShift ptrBits usb fuel tr handle numBits inData outData isLast =
        ⟨some .NERO_SUCCESS, handle, tr ++ new⟩ ∧
      new.map Event.call =
        Call.control handle.device 0x40 0x81 (beginShiftValue .SEND_DATA isLast true) 0
            (littleEndian32 numBits) 4 5000 ::
          (List.range (numChunks handle.endpointSize ((numBits + 7) / 8))).flatMap
            (fun k =>
              [Call.bulkWrite handle.device 0x02 (inData + k * handle.endpointSize)
                  (min handle.endpointSize ((numBits + 7) / 8 - k * handle.endpointSize))
                  5000,
                Call.bulkRead handle.device 0x84 (outData + k * handle.endpointSize)
                  (min handle.endpointSize ((numBits + 7) / 8 - k * handle.endpointSize))
                  5000]) ∧
      sentBytes mem new = (List.range' inData ((numBits + 7) / 8)).map mem ∧
      receivedAddrs new = List.range' outData ((numBits + 7) / 8) := by
  obtain ⟨new, h1, h2⟩ := neroShift_ok ptrBits usb fuel tr handle numBits inData outData
    isLast hc hc16 hbits hok hfuel
  rw [sendTypeOf_data ptrBits inData hz ho] at h1 h2
  have hd : decide (outData ≠ 0) = true := by simp [hout]
  rw [hd] at h1 h2
  simp only [decide_True] at h2
  refine ⟨_ :: new, h1, ?_, ?_, ?_⟩
  · rw [List.map_cons, h2]
    simp only [beginShiftEvent, shiftCalls, List.cons.injEq, true_and]
    apply List.flatMap_congr
    intro k _
    simp [chunkCalls]
  · simp only [sentBytes, List.map_cons, h2, beginShiftEvent, List.flatMap_cons,
      Call.sentAddrs, List.nil_append]
    rw [shiftCalls_sentAddrs handle _ hc]
  · simp only [receivedAddrs, List.map_cons, h2, beginShiftEvent, List.flatMap_cons,
      Call.receivedAddrs, List.nil_append]
    rw [shiftCalls_receivedAddrs handle _ hc]

/-- Witness for C2: 24 bits from address 4096 to address 8192 with `endpointSize = 2`. -/
theorem neroShift_data_transfers_witness :
    ((4096 : Nat) ≠ ZEROS ∧ (4096 : Nat) ≠ ONES 64 ∧ (8192 : Nat) ≠ 0) ∧
    ∃ new,
      neroShift 64 okUsb 3 [] ⟨1, 2⟩ 24 4096 8192 false =
        ⟨some .NERO_SUCCESS, ⟨1, 2⟩, [] ++ new⟩ ∧
      new.map Event.call =
        Call.control (⟨1, 2⟩ : NeroHandle).device 0x40 0x81
            (beginShiftValue .SEND_DATA false true) 0 (littleEndian32 24) 4 5000 ::
          (List.range (numChunks (⟨1, 2⟩ : NeroHandle).endpointSize ((24 + 7) / 8))).flatMap
            (fun k =>
              [Call.bulkWrite (⟨1, 2⟩ : NeroHandle).device 0x02
                  (4096 + k * (⟨1, 2⟩ : NeroHandle).endpointSize)
                  (min (⟨1, 2⟩ : NeroHandle).endpointSize
                    ((24 + 7) / 8 - k * (⟨1, 2⟩ : NeroHandle).endpointSize)) 5000,
                Call.bulkRead (⟨1, 2⟩ : NeroHandle).device 0x84
                  (8192 + k * (⟨1, 2⟩ : NeroHandle).endpointSize)
                  (min (⟨1, 2⟩ : NeroHandle).endpointSize
                    ((24 + 7) / 8 - k * (⟨1, 2⟩ : NeroHandle).endpointSize)) 5000]) ∧
      sentBytes (fun a => a % 256) new = (List.range' 4096 ((24 + 7) / 8)).map (fun a => a % 256) ∧
      receivedAddrs new = List.range' 8192 ((24 + 7) / 8) :=
  ⟨⟨by decide, by decide, by decide⟩,
    neroShift_data_transfers 64 okUsb 3 [] ⟨1, 2⟩ 24 4096 8192 false (fun a => a % 256)
      (by decide) (by decide) (by decide) (fun _ _ => le_refl _) (by decide) (by decide)
      (by decide) (by decide)⟩

/-- C3: for every `isLast`, `responseNeeded` and send mode, the begin-shift control
transfer that `beginShift` issues (request `0x81`) carries the value
`(responseNeeded ? 1 : 0) + (isLast ? 2 : 0) + 4 * modeCode`, with mode codes Zeros = 0,
Ones = 1, Data = 2: bit 0 is `responseNeeded`, bit 1 is `isLast`, bits [3:2] are the mode
code, bits [15:4] are zero, and two different triples never give the same value. -/
theorem beginShift_value_layout (usb : Usb) (tr : Trace) (handle : NeroHandle)
    (numBits : Nat) (sendType : SendType) (isLast responseNeeded : Bool) :
    (∃ status, (beginShift usb tr handle numBits sendType isLast responseNeeded).2 =
      tr ++ [⟨Call.control handle.device 0x40 0x81
        ((if responseNeeded then 1 else 0) + (if isLast then 2 else 0) + 4 * sendType.toNat)
        0 (littleEndian32 numBits) 4 5000, status⟩]) ∧
    beginShiftValue sendType isLast responseNeeded =
      (if responseNeeded then 1 else 0) + (if isLast then 2 else 0) + 4 * sendType.toNat ∧
    (SendType.SEND_ZEROS.toNat = 0 ∧ SendType.SEND_ONES.toNat = 1 ∧
      SendType.SEND_DATA.toNat = 2) ∧
    (beginShiftValue sendType isLast responseNeeded % 2 = 1 ↔ responseNeeded = true) ∧
    (beginShiftValue sendType isLast responseNeeded / 2 % 2 = 1 ↔ isLast = true) ∧
    beginShiftValue sendType isLast responseNeeded / 4 % 4 = sendType.toNat ∧
    beginShiftValue sendType isLast responseNeeded / 16 = 0 ∧
    (∀ (sendType' : SendType) (isLast' responseNeeded' : Bool),
      beginShiftValue sendType' isLast' responseNeeded' =
        beginShiftValue sendType isLast responseNeeded →
      sendType' = sendType ∧ isLast' = isLast ∧ responseNeeded' = responseNeeded) := by
  have hv : beginShiftValue sendType isLast responseNeeded =
      (if responseNeeded then 1 else 0) + (if isLast then 2 else 0) + 4 * sendType.toNat := by
    cases sendType <;> cases isLast <;> cases responseNeeded <;> decide
  refine ⟨⟨(beginShiftEvent usb tr handle numBits sendType isLast responseNeeded).status, ?_⟩,
    hv, ⟨rfl, rfl, rfl⟩, ?_, ?_, ?_, ?_, ?_⟩
  · rw [beginShift_eq, beginShiftEvent, hv]
  · cases sendType <;> cases isLast <;> cases responseNeeded <;> decide
  · cases sendType <;> cases isLast <;> cases responseNeeded <;> decide
  · cases sendType <;> cases isLast <;> cases responseNeeded <;> decide
  · cases sendType <;> cases isLast <;> cases responseNeeded <;> decide
  · intro sendType' isLast' responseNeeded'
    cases sendType <;> cases isLast <;> cases responseNeeded <;> cases sendType' <;>
      cases isLast' <;> cases responseNeeded' <;> decide

/-- C4: a `neroShift` call whose send source is `ZEROS` or `ONES` issues no bulk OUT
transfer: for every session, `numBits`, `isLast`, receive buffer and transport, and
however far the call has run (any fuel), the transport events it has added are the
begin-shift control transfer followed by events none of which is a bulk write. -/
theorem neroShift_zeros_ones_no_bulk_out (ptrBits : Nat) (usb : Usb) (fuel : Nat)
    (tr : Trace) (handle : NeroHandle) (numBits inData outData : Nat) (isLast : Bool)
    (hsrc : inData = ZEROS ∨ inData = ONES ptrBits) :
    ∃ new, (neroShift ptrBits usb fuel tr handle numBits inData outData isLast).trace =
        tr ++ new ∧
      ∀ e ∈ new, e.call.isBulkWrite = false := by
  have hst : sendTypeOf ptrBits inData ≠ .SEND_DATA := by
    unfold sendTypeOf
    rcases hsrc with h | h
    · simp [h]
    · split_ifs <;> simp_all
  rw [neroShift_eq]
  split_ifs with hb
  · exact ⟨[_], rfl, by simp [beginShiftEvent, Call.isBulkWrite]⟩
  · obtain ⟨_, new, h1, h2⟩ := shiftLoop_kinds usb handle (sendTypeOf ptrBits inData)
      (decide (outData ≠ 0)) fuel
      (tr ++ [beginShiftEvent usb tr handle numBits (sendTypeOf ptrBits inData) isLast
        (decide (outData ≠ 0))]) (bitsToBytes numBits) inData outData
    refine ⟨beginShiftEvent usb tr handle numBits (sendTypeOf ptrBits inData) isLast
      (decide (outData ≠ 0)) :: new, by rw [h1]; simp, ?_⟩
    intro e he
    rcases List.mem_cons.mp he with he | he
    · rw [he]; rfl
    · rcases h2 e he with ⟨_, h⟩ | ⟨h, _⟩
      · exact absurd h hst
      · cases hc : e.call <;> simp_all [Call.isBulkRead, Call.isBulkWrite]

/-- Witness for C4: 100 bits of ones, with a receive buffer, on `endpointSize = 8`. -/
theorem neroShift_zeros_ones_no_bulk_out_witness :
    (ONES 64 = ZEROS ∨ ONES 64 = ONES 64) ∧
    ∃ new, (neroShift 64 okUsb 20 [] ⟨1, 8⟩ 100 (ONES 64) 8192 true).trace = [] ++ new ∧
      ∀ e ∈ new, e.call.isBulkWrite = false :=
  ⟨Or.inr rfl,
    neroShift_zeros_ones_no_bulk_out 64 okUsb 20 [] ⟨1, 8⟩ 100 (ONES 64) 8192 true
      (Or.inr rfl)⟩

/-- C5: a `neroShift` call whose receive buffer is absent (`outData = NULL`) issues no
bulk IN transfer, and bit 0 of the value field of its begin-shift control transfer is
clear: for every session, `numBits`, send source, `isLast` and transport, and however far
the call has run (any fuel), the events it has added are that control transfer followed
by events none of which is a bulk read. -/
theorem neroShift_no_sink_no_bulk_in (ptrBits : Nat) (usb : Usb) (fuel : Nat)
    (tr : Trace) (handle : NeroHandle) (numBits inData : Nat) (isLast : Bool) :
    ∃ value status rest,
      (neroShift ptrBits usb fuel tr handle numBits inData 0 isLast).trace =
        tr ++ ⟨Call.control handle.device 0x40 0x81 value 0 (littleEndian32 numBits) 4 5000,
          status⟩ :: rest ∧
      value % 2 = 0 ∧
      ∀ e ∈ rest, e.call.isBulkRead = false := by
  have hv : beginShiftValue (sendTypeOf ptrBits inData) isLast false % 2 = 0 := by
    cases sendTypeOf ptrBits inData <;> cases isLast <;> decide
  have hd : decide ((0 : Nat) ≠ 0) = false := by decide
  rw [neroShift_eq, hd]
  split_ifs with hb
  · exact ⟨_, (beginShiftEvent usb tr handle numBits (sendTypeOf ptrBits inData) isLast
      false).status, [], rfl, hv, by simp⟩
  · obtain ⟨_, new, h1, h2⟩ := shiftLoop_kinds usb handle (sendTypeOf ptrBits inData)
      false fuel
      (tr ++ [beginShiftEvent usb tr handle numBits (sendTypeOf ptrBits inData) isLast
        false]) (bitsToBytes numBits) inData 0
    refine ⟨_, (beginShiftEvent usb tr handle numBits (sendTypeOf ptrBits inData) isLast
      false).status, new, by rw [h1]; simp [beginShiftEvent], hv, ?_⟩
    intro e he
    rcases h2 e he with ⟨h, _⟩ | ⟨_, h⟩
    · cases hc : e.call <;> simp_all [Call.isBulkRead, Call.isBulkWrite]
    · exact absurd h (by decide)

/-- C6: on a session with `0 < endpointSize`, whatever the transport does, `neroShift`
returns (given fuel for its iterations), the events it added record the transport's
replies, a transfer that failed is the last transport call of the operation, the status
returned is then `NERO_BEGIN_SHIFT` for the begin-shift control transfer, `NERO_SEND` for
a bulk OUT and `NERO_RECEIVE` for a bulk IN (`phaseError`), and the status is
`NERO_SUCCESS` if and only if no transfer failed. -/
theorem neroShift_aborts_at_first_failure (ptrBits : Nat) (usb : Usb) (fuel : Nat)
    (tr : Trace) (handle : NeroHandle) (numBits inData outData : Nat) (isLast : Bool)
    (hc : 0 < handle.endpointSize) (hc16 : handle.endpointSize < 2 ^ 16)
    (hbits : numBits < 2 ^ 32) (hfuel : (numBits + 7) / 8 ≤ fuel) :
    ∃ ret new,
      neroShift ptrBits usb fuel tr handle numBits inData outData isLast =
        ⟨some ret, handle, tr ++ new⟩ ∧
      (∀ pre e post, new = pre ++ e :: post → e.status = (usb (tr ++ pre) e.call).status) ∧
      (∀ pre e post, new = pre ++ e :: post → e.status < 0 →
        post = [] ∧ ret = phaseError e.call) ∧
      (ret = .NERO_SUCCESS ↔ ∀ e ∈ new, 0 ≤ e.status) ∧
      (∃ value status rest, new = ⟨Call.control handle.device 0x40 0x81 value 0
          (littleEndian32 numBits) 4 5000, status⟩ :: rest ∧
        ∀ e ∈ rest, (e.call.isBulkWrite = true ∨ e.call.isBulkRead = true)) := by
  have hb := bitsToBytes_eq_ceil numBits hbits
  rw [neroShift_eq]
  split_ifs with hf
  · have h := abortsAtFailure_fail usb tr _
      (show (beginShiftEvent usb tr handle numBits (sendTypeOf ptrBits inData) isLast
        (decide (outData ≠ 0))).status = _ from rfl) hf
    exact ⟨_, [beginShiftEvent usb tr handle numBits (sendTypeOf ptrBits inData) isLast
      (decide (outData ≠ 0))], rfl, h.2.1, h.2.2, h.1,
      ⟨_, (beginShiftEvent usb tr handle numBits (sendTypeOf ptrBits inData) isLast
        (decide (outData ≠ 0))).status, [], rfl, by simp⟩⟩
  · obtain ⟨ret, new, h1, h2, h3⟩ := shiftLoop_aborts usb handle (sendTypeOf ptrBits inData)
      (decide (outData ≠ 0)) hc hc16 fuel
      (tr ++ [beginShiftEvent usb tr handle numBits (sendTypeOf ptrBits inData) isLast
        (decide (outData ≠ 0))]) (bitsToBytes numBits) inData outData
      (by omega) (by omega)
    have h := abortsAtFailure_cons usb tr _ ret new
      (show (beginShiftEvent usb tr handle numBits (sendTypeOf ptrBits inData) isLast
        (decide (outData ≠ 0))).status = _ from rfl) hf h2
    exact ⟨ret, beginShiftEvent usb tr handle numBits (sendTypeOf ptrBits inData) isLast
      (decide (outData ≠ 0)) :: new, by rw [h1]; simp, h.2.1, h.2.2, h.1,
      ⟨_, (beginShiftEvent usb tr handle numBits (sendTypeOf ptrBits inData) isLast
        (decide (outData ≠ 0))).status, new, rfl, h3⟩⟩

/-- Witness for C6: 40 bits, `endpointSize = 2`, the transport fails at its third call
(the bulk IN of the first chunk). -/
theorem neroShift_aborts_at_first_failure_witness :
    (0 < (⟨1, 2⟩ : NeroHandle).endpointSize ∧ (40 + 7) / 8 ≤ 5) ∧
    ∃ ret new,
      neroShift 64 (failAt 2) 5 [] ⟨1, 2⟩ 40 4096 8192 true =
        ⟨some ret, ⟨1, 2⟩, [] ++ new⟩ ∧
      (∀ pre e post, new = pre ++ e :: post →
        e.status = (failAt 2 ([] ++ pre) e.call).status) ∧
      (∀ pre e post, new = pre ++ e :: post → e.status < 0 →
        post = [] ∧ ret = phaseError e.call) ∧
      (ret = .NERO_SUCCESS ↔ ∀ e ∈ new, 0 ≤ e.status) ∧
      (∃ value status rest, new = ⟨Call.control (⟨1, 2⟩ : NeroHandle).device 0x40 0x81 value 0
          (littleEndian32 40) 4 5000, status⟩ :: rest ∧
        ∀ e ∈ rest, (e.call.isBulkWrite = true ∨ e.call.isBulkRead = true)) :=
  ⟨⟨by decide, by decide⟩,
    neroShift_aborts_at_first_failure 64 (failAt 2) 5 [] ⟨1, 2⟩ 40 4096 8192 true
      (by decide) (by decide) (by decide) (by decide)⟩

/-- C7, counterexample: on a session with `endpointSize = 0` (device pointer live or
`NULL`) a zero-bit shift is not rejected; `neroShift` issues the begin-shift control
transfer and returns `NERO_SUCCESS`. -/
theorem neroShift_zero_endpointSize_not_rejected :
    neroShift 64 okUsb 0 [] ⟨1, 0⟩ 0 ZEROS 0 false =
      ⟨some .NERO_SUCCESS, ⟨1, 0⟩,
        [⟨Call.control 1 0x40 0x81 0 0 [0, 0, 0, 0] 4 5000, 0⟩]⟩ ∧
    neroShift 64 okUsb 0 [] ⟨0, 0⟩ 0 ZEROS 0 false =
      ⟨some .NERO_SUCCESS, ⟨0, 0⟩,
        [⟨Call.control 0 0x40 0x81 0 0 [0, 0, 0, 0] 4 5000, 0⟩]⟩ := by
  constructor <;> decide

/-- C7, amended: `neroShift` does not look at the session before it starts.  On a session
with `endpointSize = 0` it issues the begin-shift control transfer like on any other;
whenever it returns, the status is `NERO_SUCCESS` exactly when no transfer failed (a
failure status comes from the transport alone); it returns `NERO_BEGIN_SHIFT` when the
begin-shift transfer fails, `NERO_SUCCESS` when that transfer succeeds and `numBits = 0`;
and for `numBits > 0` on a transport that never fails it never returns (every chunk has
size 0, so no amount of fuel lets the loop finish). -/
theorem neroShift_zero_endpointSize (ptrBits : Nat) (usb : Usb) (fuel : Nat) (tr : Trace)
    (handle : NeroHandle) (numBits inData outData : Nat) (isLast : Bool)
    (hz : handle.endpointSize = 0) (hbits : numBits < 2 ^ 32) :
    (∃ value status rest,
      (neroShift ptrBits usb fuel tr handle numBits inData outData isLast).trace =
        tr ++ ⟨Call.control handle.device 0x40 0x81 value 0 (littleEndian32 numBits) 4 5000,
          status⟩ :: rest ∧
      status = (usb tr (Call.control handle.device 0x40 0x81 value 0
        (littleEndian32 numBits) 4 5000)).status ∧
      (∀ ret, (neroShift ptrBits usb fuel tr handle numBits inData outData isLast).status =
          some ret →
        (ret = .NERO_SUCCESS ↔ 0 ≤ status ∧ ∀ e ∈ rest, 0 ≤ e.status)) ∧
      (status < 0 →
        neroShift ptrBits usb fuel tr handle numBits inData outData isLast =
          ⟨some .NERO_BEGIN_SHIFT, handle,
            tr ++ [⟨Call.control handle.device 0x40 0x81 value 0 (littleEndian32 numBits)
              4 5000, status⟩]⟩) ∧
      (0 ≤ status → numBits = 0 →
        neroShift ptrBits usb fuel tr handle numBits inData outData isLast =
          ⟨some .NERO_SUCCESS, handle,
            tr ++ [⟨Call.control handle.device 0x40 0x81 value 0 (littleEndian32 numBits)
              4 5000, status⟩]⟩)) ∧
    (numBits ≠ 0 → (∀ h c, 0 ≤ (usb h c).status) →
      (neroShift ptrBits usb fuel tr handle numBits inData outData isLast).status = none) := by
  have hb := bitsToBytes_eq_ceil numBits hbits
  constructor
  · rw [neroShift_eq]
    split_ifs with hf
    · refine ⟨_, (beginShiftEvent usb tr handle numBits (sendTypeOf ptrBits inData) isLast
        (decide (outData ≠ 0))).status, [], rfl, rfl, ?_, fun _ => rfl, ?_⟩
      · intro ret h
        simp only [Option.some.injEq] at h
        rw [← h]
        constructor
        · intro h'; exact absurd h' (by decide)
        · intro h'; omega
      · intro h'; omega
    · obtain ⟨new, h1, h2⟩ := shiftLoop_aborts_any usb handle (sendTypeOf ptrBits inData)
        (decide (outData ≠ 0)) fuel
        (tr ++ [beginShiftEvent usb tr handle numBits (sendTypeOf ptrBits inData) isLast
          (decide (outData ≠ 0))]) (bitsToBytes numBits) inData outData
      refine ⟨_, (beginShiftEvent usb tr handle numBits (sendTypeOf ptrBits inData) isLast
        (decide (outData ≠ 0))).status, new, by rw [h1]; simp [beginShiftEvent], rfl, ?_,
        fun h' => absurd h' hf, ?_⟩
      · intro ret h
        rw [(h2 ret h).1]
        constructor
        · intro h'; exact ⟨by omega, h'⟩
        · intro h'; exact h'.2
      · intro _ h0
        subst h0
        have : bitsToBytes 0 = 0 := by decide
        rw [this, shiftLoop_zero_bytes]
        rfl
  · intro hn hok
    have hnf : ¬ (beginShiftEvent usb tr handle numBits (sendTypeOf ptrBits inData) isLast
        (decide (outData ≠ 0))).status < 0 := not_lt.mpr (hok _ _)
    rw [neroShift_eq, if_neg hnf]
    exact shiftLoop_stuck usb handle _ _ _ hz (by omega) (by omega) hok fuel _ _ _

/-- Witness for C7 (amended): a closed session and an 8-bit Data-mode shift. -/
theorem neroShift_zero_endpointSize_witness :
    ((⟨0, 0⟩ : NeroHandle).endpointSize = 0 ∧ 8 < 2 ^ 32) ∧
    (8 ≠ 0 → (∀ h c, 0 ≤ (okUsb h c).status) →
      (neroShift 64 okUsb 1000 [] ⟨0, 0⟩ 8 4096 0 true).status = none) :=
  ⟨⟨rfl, by decide⟩,
    (neroShift_zero_endpointSize 64 okUsb 1000 [] ⟨0, 0⟩ 8 4096 0 true rfl (by decide)).2⟩

/-- C8: when the descriptor query either fails or delivers a blob laid out as one
configuration descriptor, one interface descriptor and that interface's `bNumEndpoints`
endpoint descriptors, all inside the buffer, `setEndpointSize` returns `NERO_SUCCESS`
with `endpointSize` the common size if and only if the control transfer succeeded, the
size recorded for the bulk endpoint `0x02` and the size recorded for the bulk endpoint
`0x84` are both non-zero, and the two are equal; otherwise it returns `NERO_ENDPOINTS` and
`endpointSize` is 0.  The size recorded for an address is non-zero only if a bulk endpoint
descriptor (`bmAttributes` `0x02`) with that address and that `wMaxPacketSize` is present,
and it is the `wMaxPacketSize` of the bulk endpoint descriptor with that address when
there is exactly one (of the last one otherwise). -/
theorem setEndpointSize_on_blob (usb : Usb) (tr : Trace) (handle : NeroHandle)
    (b : DescriptorBlob) (hwf : b.WellFormed)
    (hdev : 0 ≤ (usb tr (descriptorQuery handle.device)).status →
      (usb tr (descriptorQuery handle.device)).status = b.bytes.length ∧
      ∀ i, i < b.bytes.length →
        (usb tr (descriptorQuery handle.device)).data i = b.bytes.getD i 0) :
    setEndpointSize usb tr handle =
      some (if 0 ≤ (usb tr (descriptorQuery handle.device)).status ∧
          recordedSize 0x02 b.endpoints ≠ 0 ∧ recordedSize 0x84 b.endpoints ≠ 0 ∧
          recordedSize 0x02 b.endpoints = recordedSize 0x84 b.endpoints then
        (.NERO_SUCCESS, ⟨handle.device, recordedSize 0x02 b.endpoints⟩,
          tr ++ [⟨descriptorQuery handle.device,
            (usb tr (descriptorQuery handle.device)).status⟩])
      else
        (.NERO_ENDPOINTS, ⟨handle.device, 0⟩,
          tr ++ [⟨descriptorQuery handle.device,
            (usb tr (descriptorQuery handle.device)).status⟩])) ∧
    (∀ addr, recordedSize addr b.endpoints ≠ 0 →
      ∃ e ∈ b.endpoints, e.bmAttributes = 0x02 ∧ e.bEndpointAddress = addr ∧
        e.wMaxPacketSize = recordedSize addr b.endpoints) ∧
    (∀ addr, ∀ e ∈ b.endpoints, e.bmAttributes = 0x02 → e.bEndpointAddress = addr →
      (∀ e' ∈ b.endpoints, e'.bmAttributes = 0x02 → e'.bEndpointAddress = addr → e' = e) →
      recordedSize addr b.endpoints = e.wMaxPacketSize) := by
  refine ⟨?_, fun addr h => recordedSize_present addr b.endpoints h,
    fun addr e he hb ha hu => recordedSize_unique addr b.endpoints e he hb ha hu⟩
  rw [setEndpointSize_eq]
  by_cases hf : (usb tr (descriptorQuery handle.device)).status < 0
  · have : ¬ 0 ≤ (usb tr (descriptorQuery handle.device)).status := by omega
    simp [hf, this]
  · obtain ⟨hlen, hbuf⟩ := hdev (by omega)
    have hpos : (usb tr (descriptorQuery handle.device)).status > 0 := by
      have : 0 < b.bytes.length := by simp [DescriptorBlob.bytes]
      omega
    have hnn : 0 ≤ (usb tr (descriptorQuery handle.device)).status := by omega
    rw [if_neg hf, if_pos hpos, walkDescriptors_blob _ b hwf hbuf]
    simp only [hnn, true_and]
    split <;> rfl

/-- Witness for C8: endpoint sizes 64/64 give `endpointSize = 64`; sizes 64 and 32 give
`NERO_ENDPOINTS`; a missing endpoint `0x84` gives `NERO_ENDPOINTS`. -/
theorem setEndpointSize_on_blob_witness :
    setEndpointSize (deviceReturning (blobWith [bulkEndpoint 0x02 64, bulkEndpoint 0x84 64]).bytes)
        [] ⟨1, 0⟩ =
      some (.NERO_SUCCESS, ⟨1, 64⟩, [⟨descriptorQuery 1, 32⟩]) ∧
    setEndpointSize (deviceReturning (blobWith [bulkEndpoint 0x02 64, bulkEndpoint 0x84 32]).bytes)
        [] ⟨1, 0⟩ =
      some (.NERO_ENDPOINTS, ⟨1, 0⟩, [⟨descriptorQuery 1, 32⟩]) ∧
    setEndpointSize (deviceReturning (blobWith [bulkEndpoint 0x02 64]).bytes) [] ⟨1, 0⟩ =
      some (.NERO_ENDPOINTS, ⟨1, 0⟩, [⟨descriptorQuery 1, 25⟩]) := by
  have hw : ∀ eps : List EndpointDescriptor, (∀ e ∈ eps, e.WellFormed) →
      (blobWith eps).endpoints.length < 256 → (blobWith eps).bytes.length ≤ 1024 →
      (blobWith eps).WellFormed :=
    fun eps h1 h2 h3 => ⟨by simp [blobWith], by simp [blobWith], h2, h1, h3⟩
  have hb : ∀ a s, s < 65536 → a < 256 → (bulkEndpoint a s).WellFormed :=
    fun a s hs ha => ⟨by simp [bulkEndpoint], ha, by simp [bulkEndpoint], hs⟩
  refine ⟨?_, ?_, ?_⟩
  · exact (setEndpointSize_on_blob
      (deviceReturning (blobWith [bulkEndpoint 0x02 64, bulkEndpoint 0x84 64]).bytes) [] ⟨1, 0⟩
      (blobWith [bulkEndpoint 0x02 64, bulkEndpoint 0x84 64])
      (hw _ (by
        intro e he
        simp only [List.mem_cons, List.mem_singleton, List.not_mem_nil, or_false] at he
        rcases he with rfl | rfl <;> exact hb _ _ (by decide) (by decide))
        (by decide) (by decide))
      (fun _ => ⟨rfl, fun _ _ => rfl⟩)).1.trans (by decide)
  · exact (setEndpointSize_on_blob
      (deviceReturning (blobWith [bulkEndpoint 0x02 64, bulkEndpoint 0x84 32]).bytes) [] ⟨1, 0⟩
      (blobWith [bulkEndpoint 0x02 64, bulkEndpoint 0x84 32])
      (hw _ (by
        intro e he
        simp only [List.mem_cons, List.mem_singleton, List.not_mem_nil, or_false] at he
        rcases he with rfl | rfl <;> exact hb _ _ (by decide) (by decide))
        (by decide) (by decide))
      (fun _ => ⟨rfl, fun _ _ => rfl⟩)).1.trans (by decide)
  · exact (setEndpointSize_on_blob
      (deviceReturning (blobWith [bulkEndpoint 0x02 64]).bytes) [] ⟨1, 0⟩
      (blobWith [bulkEndpoint 0x02 64])
      (hw _ (by
        intro e he
        simp only [List.mem_singleton] at he
        rw [he]; exact hb _ _ (by decide) (by decide))
        (by decide) (by decide))
      (fun _ => ⟨rfl, fun _ _ => rfl⟩)).1.trans (by decide)

/-- C9, counterexample: a device answers the descriptor query with 1024 bytes `0xFF`.
The walk skips 255 bytes of "configuration descriptor" and 255 bytes of "interface
descriptor", takes 255 as `bNumEndpoints`, and steps by 255 bytes per endpoint: the
fourth endpoint descriptor is read at offset 1275 + 3, outside `descriptorBuffer[1024]`.
`neroInitialise` then has no defined outcome: it neither succeeds nor fails with
`NERO_ENDPOINTS` or `NERO_ENABLE`. -/
theorem neroInitialise_walk_leaves_buffer :
    neroInitialise allOnesDevice [] 1 ⟨0, 0⟩ = none ∧
    ¬ ∃ o, neroInitialise allOnesDevice [] 1 ⟨0, 0⟩ = some o := by
  have h : neroInitialise allOnesDevice [] 1 ⟨0, 0⟩ = none := by decide
  exact ⟨h, by rw [h]; simp⟩

/-- C9, amended: for every device handle and every transport behaviour in which the
descriptor query fails, returns no bytes, or leaves a buffer on which the discovery walk
reads only inside `descriptorBuffer`, `neroInitialise` either (a) succeeds, having issued
the descriptor query followed by exactly one mode-activation control transfer (request
`0x80`, value `MODE_JTAG`, index `MODE_JTAG`), and leaves `device` equal to the supplied
device and `endpointSize` equal to the discovered size; or (b) fails with
`NERO_ENDPOINTS` when discovery failed, the descriptor query being its only transfer, or
with `NERO_ENABLE` when the activation transfer failed; after either failure `device` is
`NULL` and `endpointSize` is 0. -/
theorem neroInitialise_outcomes (usb : Usb) (tr : Trace) (device : Nat) (handle : NeroHandle)
    (hwalk : (usb tr (descriptorQuery device)).status ≤ 0 ∨
      (walkDescriptors (usb tr (descriptorQuery device)).data).isSome = true) :
    ∃ st size,
      setEndpointSize usb tr ⟨device, handle.endpointSize⟩ =
        some (st, ⟨device, size⟩, tr ++ [queryEvent usb tr device]) ∧
      ((st = .NERO_SUCCESS ∧
          0 ≤ (modeEvent usb (tr ++ [queryEvent usb tr device]) device MODE_JTAG).status ∧
          neroInitialise usb tr device handle =
            some ⟨.NERO_SUCCESS, ⟨device, size⟩,
              tr ++ [queryEvent usb tr device,
                modeEvent usb (tr ++ [queryEvent usb tr device]) device MODE_JTAG]⟩) ∨
        (st ≠ .NERO_SUCCESS ∧
          neroInitialise usb tr device handle =
            some ⟨.NERO_ENDPOINTS, ⟨0, 0⟩, tr ++ [queryEvent usb tr device]⟩) ∨
        (st = .NERO_SUCCESS ∧
          (modeEvent usb (tr ++ [queryEvent usb tr device]) device MODE_JTAG).status < 0 ∧
          neroInitialise usb tr device handle =
            some ⟨.NERO_ENABLE, ⟨0, 0⟩,
              tr ++ [queryEvent usb tr device,
                modeEvent usb (tr ++ [queryEvent usb tr device]) device MODE_JTAG]⟩)) := by
  obtain ⟨⟨st, h1, tr1⟩, hr⟩ := setEndpointSize_isSome usb tr ⟨device, handle.endpointSize⟩ hwalk
  obtain ⟨hd, ht, _⟩ := setEndpointSize_shape usb tr _ _ hr
  simp only at hd ht
  obtain ⟨d1, size⟩ := h1
  simp only at hd
  subst hd ht
  refine ⟨st, size, hr, ?_⟩
  unfold neroInitialise
  simp only [hr, setJtagMode_eq, if_true]
  by_cases hst : st = .NERO_SUCCESS
  · by_cases ha : (modeEvent usb (tr ++ [queryEvent usb tr d1]) d1 MODE_JTAG).status < 0
    · right; right
      refine ⟨hst, ha, ?_⟩
      simp only [modeEvent, queryEvent] at ha
      simp [hst, ha, modeEvent, queryEvent]
    · left
      refine ⟨hst, by omega, ?_⟩
      simp only [modeEvent, queryEvent] at ha
      simp [hst, ha, modeEvent, queryEvent]
  · right; left
    refine ⟨hst, ?_⟩
    simp [hst, queryEvent]

/-- Witness for C9 (amended): a device that returns the 64/64 blob and accepts the mode
transfer. -/
theorem neroInitialise_outcomes_witness :
    ∃ st size,
      setEndpointSize
          (deviceReturning (blobWith [bulkEndpoint 0x02 64, bulkEndpoint 0x84 64]).bytes) []
          ⟨1, (⟨0, 0⟩ : NeroHandle).endpointSize⟩ =
        some (st, ⟨1, size⟩, [] ++ [queryEvent
          (deviceReturning (blobWith [bulkEndpoint 0x02 64, bulkEndpoint 0x84 64]).bytes)
          [] 1]) ∧
      neroInitialise
          (deviceReturning (blobWith [bulkEndpoint 0x02 64, bulkEndpoint 0x84 64]).bytes) []
          1 ⟨0, 0⟩ =
        some ⟨.NERO_SUCCESS, ⟨1, 64⟩,
          [⟨descriptorQuery 1, 32⟩, ⟨modeCall 1 MODE_JTAG, 32⟩]⟩ := by
  obtain ⟨st, size, h, _⟩ := neroInitialise_outcomes
    (deviceReturning (blobWith [bulkEndpoint 0x02 64, bulkEndpoint 0x84 64]).bytes) [] 1
    ⟨0, 0⟩ (Or.inr (by decide))
  exact ⟨st, size, h, by decide⟩

/-- C10: on a session holding a device handle, `neroClose` issues exactly one control
transfer, the mode deactivation (request `0x80` as for activation, value 0, index
`MODE_JTAG`); afterwards `device` is `NULL` and `endpointSize` is 0 whether or not the
transfer succeeded; the result is `NERO_ENABLE` if the transfer failed and `NERO_SUCCESS`
otherwise.  The activation transfer of `setJtagMode` differs in the value field only. -/
theorem neroClose_open_session (usb : Usb) (tr : Trace) (handle : NeroHandle)
    (hdev : handle.device ≠ 0) :
    neroClose usb tr handle =
      ⟨if (usb tr (Call.control handle.device 0x40 0x80 0 MODE_JTAG [] 0 5000)).status < 0
          then .NERO_ENABLE else .NERO_SUCCESS,
        ⟨0, 0⟩,
        tr ++ [⟨Call.control handle.device 0x40 0x80 0 MODE_JTAG [] 0 5000,
          (usb tr (Call.control handle.device 0x40 0x80 0 MODE_JTAG [] 0 5000)).status⟩]⟩ ∧
    (setJtagMode usb tr handle true).2 =
      tr ++ [⟨Call.control handle.device 0x40 0x80 MODE_JTAG MODE_JTAG [] 0 5000,
        (usb tr (Call.control handle.device 0x40 0x80 MODE_JTAG MODE_JTAG [] 0 5000)).status⟩] ∧
    MODE_JTAG = 1 := by
  refine ⟨?_, ?_, rfl⟩
  · unfold neroClose
    rw [if_pos hdev]
    simp only [setJtagMode_eq, modeCall, Bool.false_eq_true, if_false]
    split <;> simp
  · rw [setJtagMode_eq]
    simp [modeCall]

/-- Witness for C10: an open session on a transport whose first call fails. -/
theorem neroClose_open_session_witness :
    (⟨1, 64⟩ : NeroHandle).device ≠ 0 ∧
    neroClose (failAt 0) [] ⟨1, 64⟩ =
      ⟨.NERO_ENABLE, ⟨0, 0⟩, [⟨Call.control 1 0x40 0x80 0 1 [] 0 5000, -1⟩]⟩ :=
  ⟨by decide, (neroClose_open_session (failAt 0) [] ⟨1, 64⟩ (by decide)).1.trans (by decide)⟩

/-- C11: `neroClose` on a session with no device handle issues no transport call,
returns `NERO_SUCCESS` and leaves the session invalid; and for every session, a second
`neroClose` right after the first returns `NERO_SUCCESS`, adds no transport call and
leaves the session as the first close left it (`device = NULL`, `endpointSize = 0`),
whatever the transport does. -/
theorem neroClose_idempotent (usb : Usb) (tr : Trace) (handle : NeroHandle)
    (endpointSize : Nat) :
    neroClose usb tr ⟨0, endpointSize⟩ = ⟨.NERO_SUCCESS, ⟨0, 0⟩, tr⟩ ∧
    (neroClose usb tr handle).handle = ⟨0, 0⟩ ∧
    neroClose usb (neroClose usb tr handle).trace (neroClose usb tr handle).handle =
      ⟨.NERO_SUCCESS, (neroClose usb tr handle).handle, (neroClose usb tr handle).trace⟩ := by
  have h0 : ∀ (t : Trace) (s : Nat), neroClose usb t ⟨0, s⟩ = ⟨.NERO_SUCCESS, ⟨0, 0⟩, t⟩ := by
    intro t s
    simp [neroClose]
  have h1 : (neroClose usb tr handle).handle = ⟨0, 0⟩ := neroClose_handle usb tr handle
  refine ⟨h0 tr endpointSize, h1, ?_⟩
  rw [h1]
  exact h0 _ 0

/-- C12: `neroClocks` issues exactly one control transfer, with request `0x83`, no
payload (length 0), value field `numClocks mod 2^16` and index field
`numClocks div 2^16`; for a 32-bit `numClocks` both fields fit in 16 bits and
`index * 65536 + value = numClocks`. -/
theorem neroClocks_encoding (usb : Usb) (tr : Trace) (handle : NeroHandle) (numClocks : Nat)
    (h32 : numClocks < 2 ^ 32) :
    neroClocks usb tr handle numClocks =
      ⟨if (usb tr (Call.control handle.device 0x40 0x83 (numClocks % 65536)
            (numClocks / 65536) [] 0 5000)).status < 0 then .NERO_CLOCKS else .NERO_SUCCESS,
        handle,
        tr ++ [⟨Call.control handle.device 0x40 0x83 (numClocks % 65536) (numClocks / 65536)
            [] 0 5000,
          (usb tr (Call.control handle.device 0x40 0x83 (numClocks % 65536)
            (numClocks / 65536) [] 0 5000)).status⟩]⟩ ∧
    numClocks / 65536 * 65536 + numClocks % 65536 = numClocks ∧
    numClocks % 65536 < 2 ^ 16 ∧ numClocks / 65536 < 2 ^ 16 := by
  have e : USB_ENDPOINT_OUT ||| USB_TYPE_VENDOR ||| USB_RECIP_DEVICE = 0x40 := by decide
  have e' : CMD_JTAG_CLOCK = 0x83 := rfl
  have hv : numClocks &&& 0xFFFF = numClocks % 65536 := Nat.and_pow_two_sub_one_eq_mod numClocks 16
  have hi : numClocks >>> 16 = numClocks / 65536 := by simp [Nat.shiftRight_eq_div_pow]
  refine ⟨?_, ?_, ?_, ?_⟩
  · simp only [neroClocks, usb_control_msg, e, e', hv, hi]
    split <;> rfl
  · omega
  · omega
  · omega

/-- Witness for C12: `numClocks = 0x10002` gives value field `0x0002` and index field
`0x0001`. -/
theorem neroClocks_encoding_witness :
    neroClocks okUsb [] ⟨1, 64⟩ 0x10002 =
      ⟨.NERO_SUCCESS, ⟨1, 64⟩, [⟨Call.control 1 0x40 0x83 0x0002 0x0001 [] 0 5000, 0⟩]⟩ :=
  (neroClocks_encoding okUsb [] ⟨1, 64⟩ 0x10002 (by decide)).1.trans (by decide)

/-- C13: for every 32-bit `bitPattern` and every `transitionCount` in 0..255 (0
included), `neroClockFSM` issues exactly one control transfer, with request `0x82`,
value field `transitionCount`, index field 0 and a 4-byte payload whose byte `i` is
`(bitPattern >> 8i) mod 256`, the little-endian encoding of `bitPattern`; it returns
`NERO_CLOCKFSM` if that transfer fails and `NERO_SUCCESS` otherwise. -/
theorem neroClockFSM_encoding (usb : Usb) (tr : Trace) (handle : NeroHandle)
    (bitPattern transitionCount : Nat) (h32 : bitPattern < 2 ^ 32)
    (h8 : transitionCount < 256) :
    neroClockFSM usb tr handle bitPattern transitionCount =
      ⟨if (usb tr (Call.control handle.device 0x40 0x82 transitionCount 0
            ((List.range 4).map fun i => (bitPattern >>> (8 * i)) % 256) 4 5000)).status < 0
          then .NERO_CLOCKFSM else .NERO_SUCCESS,
        handle,
        tr ++ [⟨Call.control handle.device 0x40 0x82 transitionCount 0
            ((List.range 4).map fun i => (bitPattern >>> (8 * i)) % 256) 4 5000,
          (usb tr (Call.control handle.device 0x40 0x82 transitionCount 0
            ((List.range 4).map fun i => (bitPattern >>> (8 * i)) % 256) 4 5000)).status⟩]⟩ ∧
    ((List.range 4).map fun i => (bitPattern >>> (8 * i)) % 256) =
      [bitPattern % 256, bitPattern / 2 ^ 8 % 256, bitPattern / 2 ^ 16 % 256,
        bitPattern / 2 ^ 24 % 256] ∧
    bitPattern % 256 + 2 ^ 8 * (bitPattern / 2 ^ 8 % 256) +
      2 ^ 16 * (bitPattern / 2 ^ 16 % 256) + 2 ^ 24 * (bitPattern / 2 ^ 24 % 256) =
      bitPattern := by
  have e : USB_ENDPOINT_OUT ||| USB_TYPE_VENDOR ||| USB_RECIP_DEVICE = 0x40 := by decide
  have e' : CMD_JTAG_CLOCK_FSM = 0x82 := rfl
  have hv : transitionCount % 2 ^ 16 = transitionCount := Nat.mod_eq_of_lt (by omega)
  have hp : littleEndian32 bitPattern =
      (List.range 4).map fun i => (bitPattern >>> (8 * i)) % 256 := by
    simp [littleEndian32, List.range_succ]
  refine ⟨?_, ?_, ?_⟩
  · simp only [neroClockFSM, usb_control_msg, e, e', hv, hp]
    split <;> rfl
  · simp [List.range_succ, Nat.shiftRight_eq_div_pow]
  · omega

/-- Witness for C13: pattern `0b1011` with `transitionCount = 4` gives payload bytes
`0B 00 00 00` and request parameter 4. -/
theorem neroClockFSM_encoding_witness :
    neroClockFSM okUsb [] ⟨1, 64⟩ 0b1011 4 =
      ⟨.NERO_SUCCESS, ⟨1, 64⟩,
        [⟨Call.control 1 0x40 0x82 4 0 [0x0B, 0x00, 0x00, 0x00] 4 5000, 0⟩]⟩ :=
  (neroClockFSM_encoding okUsb [] ⟨1, 64⟩ 0b1011 4 (by decide) (by decide)).1.trans
    (by decide)

/-- C14: for every `neroShift` call, whatever the transport does and however far the
call has run (any fuel), the first transport call it adds is the begin-shift control
transfer (request `0x81`, index 0, 4-byte payload the little-endian `numBits`) and every
later call is a bulk transfer, so the begin-shift transfer occurs exactly once and before
any bulk transfer; when `numBits = 0` it is the only transport call, for every send source
and receive buffer, and the call returns `NERO_SUCCESS` if that transfer succeeds
(`NERO_BEGIN_SHIFT` if it fails). -/
theorem neroShift_begins_with_beginShift (ptrBits : Nat) (usb : Usb) (fuel : Nat)
    (tr : Trace) (handle : NeroHandle) (numBits inData outData : Nat) (isLast : Bool) :
    (∃ value status rest,
      (neroShift ptrBits usb fuel tr handle numBits inData outData isLast).trace =
        tr ++ ⟨Call.control handle.device 0x40 0x81 value 0
          [numBits % 256, numBits / 2 ^ 8 % 256, numBits / 2 ^ 16 % 256,
            numBits / 2 ^ 24 % 256] 4 5000, status⟩ :: rest ∧
      ∀ e ∈ rest, (e.call.isBulkWrite = true ∨ e.call.isBulkRead = true)) ∧
    (∃ value,
      neroShift ptrBits usb fuel tr handle 0 inData outData isLast =
        ⟨some (if (usb tr (Call.control handle.device 0x40 0x81 value 0 [0, 0, 0, 0] 4
            5000)).status < 0 then .NERO_BEGIN_SHIFT else .NERO_SUCCESS),
          handle,
          tr ++ [⟨Call.control handle.device 0x40 0x81 value 0 [0, 0, 0, 0] 4 5000,
            (usb tr (Call.control handle.device 0x40 0x81 value 0 [0, 0, 0, 0] 4
              5000)).status⟩]⟩) := by
  have hp : littleEndian32 numBits = [numBits % 256, numBits / 2 ^ 8 % 256,
      numBits / 2 ^ 16 % 256, numBits / 2 ^ 24 % 256] := by
    simp [littleEndian32, Nat.shiftRight_eq_div_pow]
  constructor
  · rw [neroShift_eq]
    split_ifs with hb
    · exact ⟨beginShiftValue (sendTypeOf ptrBits inData) isLast (decide (outData ≠ 0)),
        (beginShiftEvent usb tr handle numBits (sendTypeOf ptrBits inData) isLast
        (decide (outData ≠ 0))).status, [], by rw [beginShiftEvent, hp], by simp⟩
    · obtain ⟨_, new, h1, h2⟩ := shiftLoop_kinds usb handle (sendTypeOf ptrBits inData)
        (decide (outData ≠ 0)) fuel
        (tr ++ [beginShiftEvent usb tr handle numBits (sendTypeOf ptrBits inData) isLast
          (decide (outData ≠ 0))]) (bitsToBytes numBits) inData outData
      refine ⟨beginShiftValue (sendTypeOf ptrBits inData) isLast (decide (outData ≠ 0)),
        (beginShiftEvent usb tr handle numBits (sendTypeOf ptrBits inData) isLast
        (decide (outData ≠ 0))).status, new,
        by rw [h1, beginShiftEvent, hp, List.append_assoc]; rfl, ?_⟩
      intro e he
      rcases h2 e he with ⟨h, _⟩ | ⟨h, _⟩
      · exact Or.inl h
      · exact Or.inr h
  · refine ⟨beginShiftValue (sendTypeOf ptrBits inData) isLast (decide (outData ≠ 0)), ?_⟩
    have h0 : bitsToBytes 0 = 0 := by decide
    have hl : littleEndian32 0 = [0, 0, 0, 0] := by decide
    rw [neroShift_eq, h0, shiftLoop_zero_bytes]
    simp only [beginShiftEvent, hl]
    split <;> rfl

/-- C15: for every unsigned 32-bit `x`, `bitsToBytes(x)` is `ceil(x/8)`: the sum
`(x >> 3) + (x & 7 ? 1 : 0)` does not wrap (it is at most `2^29`), the result is 0
exactly when `x = 0`, and `8 * bitsToBytes(x) - 7 ≤ x ≤ 8 * bitsToBytes(x)` for
`x > 0`. -/
theorem bitsToBytes_ceil (x : Nat) (h : x < 2 ^ 32) :
    bitsToBytes x = (x + 7) / 8 ∧
    (x >>> 3) + (if x &&& 7 ≠ 0 then 1 else 0) = (x + 7) / 8 ∧
    (x >>> 3) + (if x &&& 7 ≠ 0 then 1 else 0) ≤ 2 ^ 29 ∧
    (bitsToBytes x = 0 ↔ x = 0) ∧
    (0 < x → 8 * bitsToBytes x - 7 ≤ x ∧ x ≤ 8 * bitsToBytes x) := by
  have h1 : x >>> 3 = x / 8 := by simp [Nat.shiftRight_eq_div_pow]
  have h2 : x &&& 7 = x % 8 := Nat.and_pow_two_sub_one_eq_mod x 3
  have hb := bitsToBytes_eq_ceil x h
  have hs : (x >>> 3) + (if x &&& 7 ≠ 0 then 1 else 0) = (x + 7) / 8 := by
    rw [h1, h2]
    split <;> omega
  refine ⟨hb, hs, ?_, ?_, ?_⟩
  · rw [hs]; omega
  · rw [hb]; omega
  · intro _
    rw [hb]; omega

/-- Witness for C15: `x = 9` needs 2 bytes. -/
theorem bitsToBytes_ceil_witness :
    (9 : Nat) < 2 ^ 32 ∧ bitsToBytes 9 = (9 + 7) / 8 :=
  ⟨by decide, (bitsToBytes_ceil 9 (by decide)).1⟩

/-- C16: session invariant.  Take any session, any transport and any sequence of
`neroInitialise` (with a non-null device), `neroClose`, `neroShift`, `neroClockFSM` and
`neroClocks` calls.  Whenever the sequence has run, if the session was valid or invalid
at the start or the sequence holds a `neroInitialise` or a `neroClose`, the session is
valid (`device` non-null, `endpointSize` non-zero) or invalid (`device` `NULL`,
`endpointSize` 0) at the end; a sequence of shift and clock calls always runs and leaves
the session fields as they were; a successful `neroInitialise` leaves the supplied device
and a non-zero `endpointSize`, a failed one and every `neroClose` leave the invalid
session; and a sequence has no state to speak of only if one of its `neroInitialise`
calls has no defined outcome (its descriptor walk left the buffer). -/
theorem session_invariant (ptrBits : Nat) (usb : Usb) (ops : List Op)
    (s : NeroHandle × Trace) (hdev : ∀ d, Op.initialise d ∈ ops → d ≠ 0) :
    (∀ s', run ptrBits usb ops s = some s' →
      (Settled s.1 ∨ ∃ op ∈ ops, op.resets = true) → Settled s'.1) ∧
    ((∀ op ∈ ops, op.resets = false) → ∃ tr', run ptrBits usb ops s = some (s.1, tr')) ∧
    (∀ d o, neroInitialise usb s.2 d s.1 = some o →
      (o.status = .NERO_SUCCESS ∧ o.handle.device = d ∧ o.handle.endpointSize ≠ 0) ∨
      (o.status ≠ .NERO_SUCCESS ∧ o.handle = ⟨0, 0⟩)) ∧
    (neroClose usb s.2 s.1).handle = ⟨0, 0⟩ ∧
    (run ptrBits usb ops s = none →
      ∃ pre d post s1, ops = pre ++ Op.initialise d :: post ∧
        run ptrBits usb pre s = some s1 ∧ neroInitialise usb s1.2 d s1.1 = none) :=
  ⟨fun s' hrun hs => run_settled ptrBits usb ops s s' hdev hrun hs,
    fun h => run_frame ptrBits usb ops s h,
    fun d o h => neroInitialise_handle usb s.2 d s.1 o h,
    neroClose_handle usb s.2 s.1,
    fun h => run_undefined ptrBits usb ops s h⟩

/-- Witness for C16: open on a device with 64-byte endpoints, shift 16 zero bits, clock
5 cycles, starting from a session holding arbitrary values. -/
theorem session_invariant_witness :
    ∃ s', run 64 (deviceReturning (blobWith [bulkEndpoint 0x02 64, bulkEndpoint 0x84 64]).bytes)
        [Op.initialise 1, Op.shift 4 16 0 0 true, Op.clocks 5] (⟨7, 9⟩, []) = some s' ∧
      Settled s'.1 := by
  obtain ⟨s', hs'⟩ := Option.isSome_iff_exists.mp
    (show (run 64 (deviceReturning (blobWith [bulkEndpoint 0x02 64, bulkEndpoint 0x84 64]).bytes)
      [Op.initialise 1, Op.shift 4 16 0 0 true, Op.clocks 5] (⟨7, 9⟩, [])).isSome = true
      by decide)
  refine ⟨s', hs', (session_invariant 64 _ _ _ ?_).1 s' hs'
    (Or.inr ⟨Op.initialise 1, by simp, rfl⟩)⟩
  intro d hd
  simp only [List.mem_cons, List.mem_singleton, Op.initialise.injEq, List.not_mem_nil,
    or_false] at hd
  rcases hd with hd | hd | hd
  · omega
  · exact absurd hd (by simp)
  · exact absurd hd (by simp)

/-- C17, counterexample: on a buffer of 1024 bytes `0xFF` the walk follows the declared
lengths (255 each) to the endpoint descriptor at offset 1275 and reads its
`bmAttributes` at offset 1278, outside `descriptorBuffer[1024]`; `setEndpointSize` does
not fail with `NERO_ENDPOINTS` there, it has no defined result. -/
theorem setEndpointSize_reads_past_buffer :
    setEndpointSize allOnesDevice [] ⟨1, 0⟩ = none ∧
    setEndpointSize allOnesDevice [] ⟨1, 0⟩ ≠
      some (.NERO_ENDPOINTS, ⟨1, 0⟩, [⟨descriptorQuery 1, 1024⟩]) ∧
    endpointLoop (fun _ => 255) 252 1275 0 0 = none ∧
    readU8 (fun _ => 255) (1275 + 3) = none := by
  have h : setEndpointSize allOnesDevice [] ⟨1, 0⟩ = none := by decide
  refine ⟨h, by rw [h]; simp, ?_, by decide⟩
  simp [endpointLoop, readU8]

/-- C17, amended: `setEndpointSize` has no bounds check; the walk stays inside the buffer
when the lengths the device declares keep it there.  When the descriptor query fails,
returns no bytes, or leaves in the buffer a blob laid out as one configuration
descriptor, one interface descriptor and that interface's endpoint descriptors, all
within the 1024 bytes, every read of the walk is inside the buffer and `setEndpointSize`
returns `NERO_SUCCESS` or `NERO_ENDPOINTS`. -/
theorem setEndpointSize_in_bounds (usb : Usb) (tr : Trace) (handle : NeroHandle)
    (h : (usb tr (descriptorQuery handle.device)).status ≤ 0 ∨
      ∃ b : DescriptorBlob, b.WellFormed ∧ ∀ i, i < b.bytes.length →
        (usb tr (descriptorQuery handle.device)).data i = b.bytes.getD i 0) :
    ∃ st size, setEndpointSize usb tr handle =
        some (st, ⟨handle.device, size⟩, tr ++ [queryEvent usb tr handle.device]) ∧
      (st = .NERO_SUCCESS ∨ st = .NERO_ENDPOINTS) := by
  have hsome : ∃ r, setEndpointSize usb tr handle = some r := by
    apply setEndpointSize_isSome
    rcases h with h | ⟨b, hwf, hbuf⟩
    · exact Or.inl h
    · right
      rw [walkDescriptors_blob _ b hwf hbuf]
      rfl
  obtain ⟨⟨st, h1, tr1⟩, hr⟩ := hsome
  obtain ⟨hd, ht, hst⟩ := setEndpointSize_shape usb tr handle _ hr
  simp only at hd ht hst
  obtain ⟨d1, size⟩ := h1
  simp only at hd
  subst hd ht
  refine ⟨st, size, hr, ?_⟩
  by_cases hs : st = .NERO_SUCCESS
  · exact Or.inl hs
  · exact Or.inr (hst hs).1

/-- Witness for C17 (amended): the 64/64 blob is read inside the buffer. -/
theorem setEndpointSize_in_bounds_witness :
    ∃ st size,
      setEndpointSize (deviceReturning (blobWith [bulkEndpoint 0x02 64, bulkEndpoint 0x84 64]).bytes)
          [] ⟨1, 0⟩ =
        some (st, ⟨(⟨1, 0⟩ : NeroHandle).device, size⟩,
          [] ++ [queryEvent (deviceReturning
            (blobWith [bulkEndpoint 0x02 64, bulkEndpoint 0x84 64]).bytes) []
            (⟨1, 0⟩ : NeroHandle).device]) ∧
      (st = .NERO_SUCCESS ∨ st = .NERO_ENDPOINTS) :=
  setEndpointSize_in_bounds
    (deviceReturning (blobWith [bulkEndpoint 0x02 64, bulkEndpoint 0x84 64]).bytes) [] ⟨1, 0⟩
    (Or.inr ⟨blobWith [bulkEndpoint 0x02 64, bulkEndpoint 0x84 64],
      ⟨by simp [blobWith], by simp [blobWith], by decide, by
        intro e he
        simp only [blobWith, List.mem_cons, List.mem_singleton, List.not_mem_nil,
          or_false] at he
        rcases he with rfl | rfl <;>
          exact ⟨by simp [bulkEndpoint], by decide, by decide, by decide⟩,
        by decide⟩,
      fun _ _ => rfl⟩)

/-- C18: the reserved send-mode code 3 (`SEND_MASK`) is never emitted.  On a machine
whose pointers have at least one bit (so that `ONES` differs from `ZEROS`), for every
`neroShift` call the only control transfer is the begin-shift one and bits [3:2] of its
value field are 0 exactly when `inData` is `ZEROS`, 1 exactly when `inData` is `ONES`, 2
exactly when it is neither, never 3; the value field is below 12. -/
theorem neroShift_never_sends_mask (ptrBits : Nat) (usb : Usb) (fuel : Nat)
    (tr : Trace) (handle : NeroHandle) (numBits inData outData : Nat) (isLast : Bool)
    (hp : 0 < ptrBits) :
    ∃ value status rest,
      (neroShift ptrBits usb fuel tr handle numBits inData outData isLast).trace =
        tr ++ ⟨Call.control handle.device 0x40 0x81 value 0 (littleEndian32 numBits) 4 5000,
          status⟩ :: rest ∧
      (∀ e ∈ rest, (e.call.isBulkWrite = true ∨ e.call.isBulkRead = true)) ∧
      value < 12 ∧ value / 4 % 4 ≠ 3 ∧
      (value / 4 % 4 = 0 ↔ inData = ZEROS) ∧
      (value / 4 % 4 = 1 ↔ inData = ONES ptrBits) ∧
      (value / 4 % 4 = 2 ↔ inData ≠ ZEROS ∧ inData ≠ ONES ptrBits) := by
  have hone : ONES ptrBits ≠ ZEROS := by
    have : 2 ≤ 2 ^ ptrBits := by
      calc 2 = 2 ^ 1 := rfl
        _ ≤ 2 ^ ptrBits := Nat.pow_le_pow_right (by decide) hp
    unfold ONES ZEROS
    omega
  have hval : ∀ rn : Bool,
      beginShiftValue (sendTypeOf ptrBits inData) isLast rn < 12 ∧
      beginShiftValue (sendTypeOf ptrBits inData) isLast rn / 4 % 4 ≠ 3 ∧
      (beginShiftValue (sendTypeOf ptrBits inData) isLast rn / 4 % 4 = 0 ↔ inData = ZEROS) ∧
      (beginShiftValue (sendTypeOf ptrBits inData) isLast rn / 4 % 4 = 1 ↔
        inData = ONES ptrBits) ∧
      (beginShiftValue (sendTypeOf ptrBits inData) isLast rn / 4 % 4 = 2 ↔
        inData ≠ ZEROS ∧ inData ≠ ONES ptrBits) := by
    intro rn
    unfold sendTypeOf
    by_cases hz : inData = ZEROS
    · have hno : inData ≠ ONES ptrBits := fun h => hone (h ▸ hz)
      rw [if_pos hz]
      cases isLast <;> cases rn <;> simp [hz, hno, hone.symm] <;> decide
    · by_cases ho : inData = ONES ptrBits
      · rw [if_neg hz, if_pos ho]
        cases isLast <;> cases rn <;> simp [hz, ho, hone] <;> decide
      · rw [if_neg hz, if_neg ho]
        cases isLast <;> cases rn <;> simp [hz, ho] <;> decide
  rw [neroShift_eq]
  split_ifs with hb
  · exact ⟨beginShiftValue (sendTypeOf ptrBits inData) isLast (decide (outData ≠ 0)),
      (beginShiftEvent usb tr handle numBits (sendTypeOf ptrBits inData) isLast
      (decide (outData ≠ 0))).status, [], rfl, by simp, hval _⟩
  · obtain ⟨_, new, h1, h2⟩ := shiftLoop_kinds usb handle (sendTypeOf ptrBits inData)
      (decide (outData ≠ 0)) fuel
      (tr ++ [beginShiftEvent usb tr handle numBits (sendTypeOf ptrBits inData) isLast
        (decide (outData ≠ 0))]) (bitsToBytes numBits) inData outData
    refine ⟨beginShiftValue (sendTypeOf ptrBits inData) isLast (decide (outData ≠ 0)),
      (beginShiftEvent usb tr handle numBits (sendTypeOf ptrBits inData) isLast
      (decide (outData ≠ 0))).status, new,
      by rw [h1, beginShiftEvent, List.append_assoc]; rfl, ?_, hval _⟩
    intro e he
    rcases h2 e he with ⟨h, _⟩ | ⟨h, _⟩
    · exact Or.inl h
    · exact Or.inr h

/-- Witness for C18: a 64-bit machine, a Data-mode shift of 16 bits. -/
theorem neroShift_never_sends_mask_witness :
    (0 < 64) ∧
    ∃ value status rest,
      (neroShift 64 okUsb 2 [] ⟨1, 64⟩ 16 4096 0 false).trace =
        [] ++ ⟨Call.control (⟨1, 64⟩ : NeroHandle).device 0x40 0x81 value 0
          (littleEndian32 16) 4 5000, status⟩ :: rest ∧
      (∀ e ∈ rest, (e.call.isBulkWrite = true ∨ e.call.isBulkRead = true)) ∧
      value < 12 ∧ value / 4 % 4 ≠ 3 ∧
      (value / 4 % 4 = 0 ↔ 4096 = ZEROS) ∧
      (value / 4 % 4 = 1 ↔ 4096 = ONES 64) ∧
      (value / 4 % 4 = 2 ↔ 4096 ≠ ZEROS ∧ 4096 ≠ ONES 64) :=
  ⟨by decide, neroShift_never_sends_mask 64 okUsb 2 [] ⟨1, 64⟩ 16 4096 0 false (by decide)⟩

/-- C19: on a session with `0 < endpointSize` the chunk loop of `neroShift` terminates.
In every iteration the remaining-byte counter `numBytes` is non-zero, the chunk
`min(endpointSize, numBytes)` is non-zero and at most `numBytes`, and the iteration
either returns with a failure status or goes on with `numBytes` minus the chunk, a
smaller value (no underflow).  On every transport the call has returned once the fuel
(one unit per iteration) covers `ceil(ceil(numBits/8) / endpointSize)` iterations; on a
transport that never fails it returns, with `NERO_SUCCESS`, exactly when the fuel covers
that number, for every send source and receive buffer alike. -/
theorem neroShift_loop_terminates (ptrBits : Nat) (usb : Usb) (fuel : Nat) (tr : Trace)
    (handle : NeroHandle) (numBits inData outData : Nat) (isLast : Bool)
    (hc : 0 < handle.endpointSize) (hc16 : handle.endpointSize < 2 ^ 16)
    (hbits : numBits < 2 ^ 32) :
    (∀ (st : SendType) (rn : Bool) (f : Nat) (t : Trace) (n i o : Nat), n ≠ 0 → n < 2 ^ 32 →
      0 < min handle.endpointSize n ∧ min handle.endpointSize n ≤ n ∧
      n - min handle.endpointSize n < n ∧
      ((∃ ret t', shiftLoop usb handle st rn (f + 1) t n i o = ⟨some ret, handle, t'⟩ ∧
          ret ≠ .NERO_SUCCESS) ∨
        ∃ t' i' o', shiftLoop usb handle st rn (f + 1) t n i o =
          shiftLoop usb handle st rn f t' (n - min handle.endpointSize n) i' o')) ∧
    (((numBits + 7) / 8 + handle.endpointSize - 1) / handle.endpointSize ≤ fuel →
      (neroShift ptrBits usb fuel tr handle numBits inData outData isLast).status ≠ none) ∧
    ((∀ h c, 0 ≤ (usb h c).status) →
      (neroShift ptrBits usb fuel tr handle numBits inData outData isLast).status =
        if ((numBits + 7) / 8 + handle.endpointSize - 1) / handle.endpointSize ≤ fuel
          then some .NERO_SUCCESS else none) := by
  have hb := bitsToBytes_eq_ceil numBits hbits
  have hN : (numBits + 7) / 8 < 2 ^ 32 := by omega
  refine ⟨?_, ?_, ?_⟩
  · intro st rn f t n i o hn h32
    obtain ⟨h1, h2, h3⟩ := shiftLoop_iteration usb handle st rn hc hc16 f t n i o hn h32
    exact ⟨h1, h2, by omega, h3⟩
  · intro hf
    rw [neroShift_eq]
    split
    · simp
    · rw [hb]
      exact shiftLoop_terminates usb handle _ _ hc hc16 fuel _ _ _ _ hN hf
  · intro hok
    have hnf : ¬ (beginShiftEvent usb tr handle numBits (sendTypeOf ptrBits inData) isLast
        (decide (outData ≠ 0))).status < 0 := not_lt.mpr (hok _ _)
    rw [neroShift_eq, if_neg hnf, hb]
    exact shiftLoop_fuel usb handle _ _ hc hc16 hok fuel _ _ _ _ hN

/-- Witness for C19: 513 bits on `endpointSize = 64` take 2 iterations: fuel 1 is not
enough, fuel 2 is, in Zeros mode without a receive buffer as in Data mode with one. -/
theorem neroShift_loop_terminates_witness :
    (neroShift 64 okUsb 1 [] ⟨1, 64⟩ 513 ZEROS 0 false).status = none ∧
    (neroShift 64 okUsb 2 [] ⟨1, 64⟩ 513 ZEROS 0 false).status = some .NERO_SUCCESS ∧
    (neroShift 64 okUsb 1 [] ⟨1, 64⟩ 513 4096 8192 false).status = none ∧
    (neroShift 64 okUsb 2 [] ⟨1, 64⟩ 513 4096 8192 false).status = some .NERO_SUCCESS :=
  ⟨((neroShift_loop_terminates 64 okUsb 1 [] ⟨1, 64⟩ 513 ZEROS 0 false (by decide) (by decide)
      (by decide)).2.2 (fun _ _ => le_refl _)).trans (by decide),
    ((neroShift_loop_terminates 64 okUsb 2 [] ⟨1, 64⟩ 513 ZEROS 0 false (by decide) (by decide)
      (by decide)).2.2 (fun _ _ => le_refl _)).trans (by decide),
    ((neroShift_loop_terminates 64 okUsb 1 [] ⟨1, 64⟩ 513 4096 8192 false (by decide)
      (by decide) (by decide)).2.2 (fun _ _ => le_refl _)).trans (by decide),
    ((neroShift_loop_terminates 64 okUsb 2 [] ⟨1, 64⟩ 513 4096 8192 false (by decide)
      (by decide) (by decide)).2.2 (fun _ _ => le_refl _)).trans (by decide)⟩

/-- C20: `neroShift`, `neroClockFSM` and `neroClocks` leave the session as they found
it: for every session, every argument and every transport, whether the call succeeded,
failed at any transfer, or (for `neroShift`) is still running, `device` and
`endpointSize` are what they were before the call. -/
theorem shift_and_clock_preserve_session (ptrBits : Nat) (usb : Usb) (fuel : Nat)
    (tr : Trace) (handle : NeroHandle) (numBits inData outData : Nat) (isLast : Bool)
    (bitPattern transitionCount numClocks : Nat) :
    (neroShift ptrBits usb fuel tr handle numBits inData outData isLast).handle = handle ∧
    (neroClockFSM usb tr handle bitPattern transitionCount).handle = handle ∧
    (neroClocks usb tr handle numClocks).handle = handle :=
  ⟨neroShift_handle ptrBits usb fuel tr handle numBits inData outData isLast,
    neroClockFSM_handle usb tr handle bitPattern transitionCount,
    neroClocks_handle usb tr handle numClocks⟩

end LibNero
